import Mathlib

/-!
Shallow embedding of the `pallet-voting` Substrate pallet
(src/pallets/voting/src/lib.rs and types.rs) and proofs about the
governance engine's claims: quadratic-cost collateral accounting,
tally/vote coherence, error-path atomicity, overflow behaviour, the
removal-threshold gate, and the proposal lifecycle.

Machine integers (u32 tallies, magnitudes, counters; block numbers) are
modelled as `Nat` with explicit `u32Max` bounds where the source performs
checked or unchecked fixed-width arithmetic.  Unchecked u32 additions
(`p.ayes += v`) and unchecked subtractions are modelled as trapping when
they leave the u32 range, mirroring a runtime built with overflow checks;
`saturating_sub` on u32 coincides with truncated `Nat` subtraction.
Storage maps are association lists; an error outcome carries the state at
the moment of the early return, so that the check-before-write discipline
of the source is itself a provable property rather than an assumption.
-/

namespace Voting

abbrev AccountId := Nat
abbrev ProposalId := Nat
abbrev BlockNumber := Nat

def u32Max : Nat := 4294967295

/-- `types.rs`: `enum VoteDecision { Aye(u32), Nay(u32) }`. -/
inductive VoteDecision where
  | Aye (n : Nat)
  | Nay (n : Nat)
deriving DecidableEq, Repr

/-- `types.rs`: `struct Vote { vote_decision, locked }`. -/
structure Vote where
  vote_decision : VoteDecision
  locked : Bool
deriving DecidableEq, Repr

/-- `types.rs`: `enum ProposalStatus`. -/
inductive ProposalStatus where
  | InProgress
  | Canceled
  | Passed
  | Rejected
  | Tied
deriving DecidableEq, Repr

/-- `types.rs`: `struct Proposal` (the description hash is opaque, modelled as `Nat`). -/
structure Proposal where
  id : ProposalId
  proposer : AccountId
  text : Nat
  time_period : BlockNumber
  status : ProposalStatus
  ayes : Nat
  nays : Nat
deriving DecidableEq, Repr

/-- `Proposal::new`: fresh proposal, `InProgress`, zero tallies. -/
def Proposal.new (id : ProposalId) (proposer : AccountId) (text : Nat)
    (time_period : BlockNumber) : Proposal :=
  ⟨id, proposer, text, time_period, ProposalStatus.InProgress, 0, 0⟩

/-! ### Association lists: the storage-map abstraction -/

/-- Lookup the first entry with the given key. -/
def alookup {K V : Type} [DecidableEq K] : List (K × V) → K → Option V
  | [], _ => none
  | (k', v) :: t, k => if k' = k then some v else alookup t k

/-- Remove every entry with the given key. -/
def aerase {K V : Type} [DecidableEq K] : List (K × V) → K → List (K × V)
  | [], _ => []
  | (k', v) :: t, k => if k' = k then aerase t k else (k', v) :: aerase t k

/-- Insert (or replace) the entry for a key. -/
def ainsert {K V : Type} [DecidableEq K] (l : List (K × V)) (k : K) (v : V) :
    List (K × V) :=
  (k, v) :: aerase l k

/-- Sum a contribution function over all entries of an association list. -/
def asum {K V : Type} (f : K → V → Nat) : List (K × V) → Nat
  | [] => 0
  | (k, v) :: t => f k v + asum f t

/-- The keys of an association list are pairwise distinct. -/
def NodupKeys {K V : Type} (l : List (K × V)) : Prop :=
  (l.map Prod.fst).Nodup

/-! ### Runtime configuration, pallet state, outcomes -/

/-- The `Config` constants: `VoteRemovalThreshold`, `MaxVoters`, `VoteLimit` (all u32). -/
structure Config where
  voteRemovalThreshold : Nat
  maxVoters : Nat
  voteLimit : Nat
deriving DecidableEq, Repr

/-- Pallet storage plus the balances ledger the pallet drives through
`reserve`/`unreserve`.  Balances are per-account free and reserved amounts. -/
structure PalletState where
  registeredVoters : List (AccountId × Unit)
  amountVoters : Option Nat
  proposals : List (ProposalId × Proposal)
  votes : List ((AccountId × ProposalId) × Vote)
  proposalCounter : Option Nat
  freeBal : List (AccountId × Nat)
  reservedBal : List (AccountId × Nat)
deriving DecidableEq

/-- Balance lookup with the zero default of a balances map. -/
def getBal (l : List (AccountId × Nat)) (a : AccountId) : Nat :=
  (alookup l a).getD 0

/-- The pallet's `Error` enum (source spellings kept), extended with the two
dispatch-level failures surfaced by collaborators: `BadOrigin` from the
authorization layer and `InsufficientBalance` from `Currency::reserve`. -/
inductive Error where
  | AlreadyRegistered
  | VoterIsNotRegistered
  | MaxVotersLimitReached
  | VoteAlreadyCasted
  | VoteNotFound
  | VoteAmountLimit
  | InvalidVoteAmount
  | InvalidUpdateAmount
  | TimePeriodToLow
  | ProposalIdToHigh
  | ProposalNotFound
  | Unauthorized
  | ProposalAlreadyEnded
  | BalanceAlreadyUnocked
  | PassedRemovalThreshold
  | ProposalInProgress
  | Overflow
  | BadOrigin
  | InsufficientBalance
deriving DecidableEq, Repr

/-- Result of one extrinsic: success with the new state, a typed error
carrying the state at the moment of the early return (before any host-level
rollback), or a trap of unchecked fixed-width arithmetic. -/
inductive Outcome where
  | ok (s : PalletState)
  | err (e : Error) (s : PalletState)
  | trap
deriving DecidableEq

/-! ### Helper functions of the pallet -/

def is_registered (s : PalletState) (who : AccountId) : Bool :=
  (alookup s.registeredVoters who).isSome

def proposal_exists (s : PalletState) (pid : ProposalId) : Bool :=
  (alookup s.proposals pid).isSome

def get_proposal_counter (s : PalletState) : Nat :=
  s.proposalCounter.getD 0

def get_proposal (s : PalletState) (pid : ProposalId) : Option Proposal :=
  alookup s.proposals pid

def vote_casted (s : PalletState) (who : AccountId) (pid : ProposalId) : Bool :=
  (alookup s.votes (who, pid)).isSome

/-- `passed_removal_threshold`: `end_time_period - current_block_number <
VoteRemovalThreshold` on unsigned block numbers.  The subtraction is the
source's unchecked one: `none` encodes the underflow trap when
`current_block_number > end_time_period`. -/
def passed_removal_threshold (cfg : Config) (now : BlockNumber)
    (end_time_period : BlockNumber) : Option Bool :=
  if now ≤ end_time_period then
    some (end_time_period - now < cfg.voteRemovalThreshold)
  else none

/-- `u32::checked_pow(n, 2)`: `none` on overflow past `u32Max`. -/
def checked_pow2 (n : Nat) : Option Nat :=
  if n * n ≤ u32Max then some (n * n) else none

/-- Magnitude of a decision (source: `match { Aye(v) => v, Nay(v) => v }`). -/
def decisionAmount : VoteDecision → Nat
  | VoteDecision.Aye v => v
  | VoteDecision.Nay v => v

/-- Whether a decision is on the aye side. -/
def isAye : VoteDecision → Bool
  | VoteDecision.Aye _ => true
  | VoteDecision.Nay _ => false

/-- `Currency::reserve`: moves `amt` from free to reserved, failing
(`InsufficientBalance`) when the free balance is too small. -/
def reserveBal (s : PalletState) (who : AccountId) (amt : Nat) :
    Option PalletState :=
  if amt ≤ getBal s.freeBal who then
    some { s with
      freeBal := ainsert s.freeBal who (getBal s.freeBal who - amt),
      reservedBal := ainsert s.reservedBal who (getBal s.reservedBal who + amt) }
  else none

/-- `Currency::unreserve`: moves back `min amt reserved`; never fails. -/
def unreserveBal (s : PalletState) (who : AccountId) (amt : Nat) : PalletState :=
  { s with
    freeBal := ainsert s.freeBal who (getBal s.freeBal who + min amt (getBal s.reservedBal who)),
    reservedBal := ainsert s.reservedBal who (getBal s.reservedBal who - amt) }

/-- Subtract a decision's magnitude from its side of the tally
(`saturating_sub`, which on `Nat` is plain truncated subtraction). -/
def subOldSide (p : Proposal) : VoteDecision → Proposal
  | VoteDecision.Aye v => { p with ayes := p.ayes - v }
  | VoteDecision.Nay v => { p with nays := p.nays - v }

/-- Add a decision's magnitude to its side of the tally with the source's
unchecked u32 addition: `none` is the overflow trap. -/
def tallyAddSide (p : Proposal) : VoteDecision → Option Proposal
  | VoteDecision.Aye v =>
      if p.ayes + v ≤ u32Max then some { p with ayes := p.ayes + v } else none
  | VoteDecision.Nay v =>
      if p.nays + v ≤ u32Max then some { p with nays := p.nays + v } else none

/-! ### The nine dispatchables -/

/-- `register_voter`: root-only registration with the `MaxVoters` cap;
the voter count is bumped with `saturating_add`. -/
def register_voter (cfg : Config) (isRoot : Bool) (who : AccountId)
    (s : PalletState) : Outcome :=
  if isRoot = false then Outcome.err Error.BadOrigin s else
  if is_registered s who then Outcome.err Error.AlreadyRegistered s else
  if s.amountVoters.getD 0 < cfg.maxVoters then
    Outcome.ok { s with
      registeredVoters := ainsert s.registeredVoters who (),
      amountVoters := some (min (s.amountVoters.getD 0 + 1) u32Max) }
  else Outcome.err Error.MaxVotersLimitReached s

/-- `make_proposal`: registered proposer, future deadline, counter bump
guarded by `checked_add`. -/
def make_proposal (cfg : Config) (now : BlockNumber) (who : AccountId)
    (description : Nat) (time_period : BlockNumber) (s : PalletState) : Outcome :=
  if is_registered s who = false then Outcome.err Error.VoterIsNotRegistered s else
  if time_period > now then
    if get_proposal_counter s < u32Max then
      Outcome.ok { s with
        proposals := ainsert s.proposals (get_proposal_counter s + 1)
          (Proposal.new (get_proposal_counter s + 1) who description time_period),
        proposalCounter := some (get_proposal_counter s + 1) }
    else Outcome.err Error.ProposalIdToHigh s
  else Outcome.err Error.TimePeriodToLow s

/-- `increase_proposal_time`: proposer-only deadline extension; note the
absence of any status check. -/
def increase_proposal_time (cfg : Config) (now : BlockNumber) (who : AccountId)
    (pid : ProposalId) (new_time_period : BlockNumber) (s : PalletState) : Outcome :=
  if is_registered s who = false then Outcome.err Error.VoterIsNotRegistered s else
  match get_proposal s pid with
  | none => Outcome.err Error.ProposalNotFound s
  | some proposal =>
    if (proposal.proposer = who : Bool) = false then Outcome.err Error.Unauthorized s else
    if new_time_period > proposal.time_period then
      if new_time_period > now then
        Outcome.ok { s with
          proposals := ainsert s.proposals pid { proposal with time_period := new_time_period } }
      else Outcome.err Error.TimePeriodToLow s
    else Outcome.err Error.TimePeriodToLow s

/-- `cancel_proposal`: proposer-only, `InProgress`, pre-deadline; flips the
status to `Canceled` and releases no collateral. -/
def cancel_proposal (cfg : Config) (now : BlockNumber) (who : AccountId)
    (pid : ProposalId) (s : PalletState) : Outcome :=
  match get_proposal s pid with
  | none => Outcome.err Error.ProposalNotFound s
  | some proposal =>
    if (proposal.proposer = who : Bool) = false then Outcome.err Error.Unauthorized s else
    if proposal.status = ProposalStatus.InProgress then
      if proposal.time_period > now then
        Outcome.ok { s with
          proposals := ainsert s.proposals pid { proposal with status := ProposalStatus.Canceled } }
      else Outcome.err Error.TimePeriodToLow s
    else Outcome.err Error.ProposalAlreadyEnded s

/-- `vote`: cast a fresh vote; reserves `n²`, inserts `{decision, locked:
true}` and bumps the matching tally with the source's unchecked addition. -/
def vote (cfg : Config) (now : BlockNumber) (who : AccountId) (pid : ProposalId)
    (vote_decision : VoteDecision) (s : PalletState) : Outcome :=
  if is_registered s who = false then Outcome.err Error.VoterIsNotRegistered s else
  match get_proposal s pid with
  | none => Outcome.err Error.ProposalNotFound s
  | some proposal =>
    if proposal.time_period > now ∧ proposal.status = ProposalStatus.InProgress then
      if vote_casted s who pid then Outcome.err Error.VoteAlreadyCasted s else
      if decisionAmount vote_decision > 0 then
        if decisionAmount vote_decision ≤ cfg.voteLimit then
          match checked_pow2 (decisionAmount vote_decision) with
          | none => Outcome.err Error.Overflow s
          | some amount_to_reserve =>
            match reserveBal s who amount_to_reserve with
            | none => Outcome.err Error.InsufficientBalance s
            | some s1 =>
              match tallyAddSide proposal vote_decision with
              | none => Outcome.trap
              | some p2 =>
                Outcome.ok { s1 with
                  votes := ainsert s1.votes (who, pid) ⟨vote_decision, true⟩,
                  proposals := ainsert s1.proposals pid p2 }
        else Outcome.err Error.VoteAmountLimit s
      else Outcome.err Error.InvalidVoteAmount s
    else Outcome.err Error.ProposalAlreadyEnded s

/-- Tail of `update_vote` after the removal-threshold gate: amount
validation, the two `checked_pow` calls, the reservation delta (unchecked
u32 subtractions of the squares under the `cmp` ordering) and the commit of
vote record and mutated proposal. -/
def update_vote_tail (cfg : Config) (who : AccountId) (pid : ProposalId)
    (new_vote_decision : VoteDecision) (s : PalletState) (proposal2 : Proposal)
    (current_amount new_amount : Nat) : Outcome :=
  if new_amount = 0 then Outcome.err Error.InvalidUpdateAmount s else
  if new_amount ≤ cfg.voteLimit then
    match checked_pow2 current_amount with
    | none => Outcome.err Error.Overflow s
    | some current_amount_pow =>
      match checked_pow2 new_amount with
      | none => Outcome.err Error.Overflow s
      | some new_amount_pow =>
        if new_amount > current_amount then
          if current_amount_pow ≤ new_amount_pow then
            match reserveBal s who (new_amount_pow - current_amount_pow) with
            | none => Outcome.err Error.InsufficientBalance s
            | some s1 =>
              Outcome.ok { s1 with
                votes := ainsert s1.votes (who, pid) ⟨new_vote_decision, true⟩,
                proposals := ainsert s1.proposals pid proposal2 }
          else Outcome.trap
        else if new_amount < current_amount then
          if new_amount_pow ≤ current_amount_pow then
            Outcome.ok { (unreserveBal s who (current_amount_pow - new_amount_pow)) with
              votes := ainsert s.votes (who, pid) ⟨new_vote_decision, true⟩,
              proposals := ainsert s.proposals pid proposal2 }
          else Outcome.trap
        else
          Outcome.ok { s with
            votes := ainsert s.votes (who, pid) ⟨new_vote_decision, true⟩,
            proposals := ainsert s.proposals pid proposal2 }
  else Outcome.err Error.VoteAmountLimit s

/-- `update_vote`: replace an existing vote.  In source order: the old
side's contribution is removed (`saturating_sub`) and the new side's added
(unchecked, before any validation of the new amount), then the
removal-threshold gate fires only for strict reductions. -/
def update_vote (cfg : Config) (now : BlockNumber) (who : AccountId)
    (pid : ProposalId) (new_vote_decision : VoteDecision) (s : PalletState) : Outcome :=
  if is_registered s who = false then Outcome.err Error.VoterIsNotRegistered s else
  match get_proposal s pid with
  | none => Outcome.err Error.ProposalNotFound s
  | some proposal =>
    if proposal.time_period > now ∧ proposal.status = ProposalStatus.InProgress then
      match alookup s.votes (who, pid) with
      | none => Outcome.err Error.VoteNotFound s
      | some current_vote =>
        match tallyAddSide (subOldSide proposal current_vote.vote_decision)
            new_vote_decision with
        | none => Outcome.trap
        | some proposal2 =>
          if decisionAmount new_vote_decision < decisionAmount current_vote.vote_decision then
            match passed_removal_threshold cfg now proposal.time_period with
            | none => Outcome.trap
            | some true => Outcome.err Error.PassedRemovalThreshold s
            | some false =>
              update_vote_tail cfg who pid new_vote_decision s proposal2
                (decisionAmount current_vote.vote_decision)
                (decisionAmount new_vote_decision)
          else
            update_vote_tail cfg who pid new_vote_decision s proposal2
              (decisionAmount current_vote.vote_decision)
              (decisionAmount new_vote_decision)
    else Outcome.err Error.ProposalAlreadyEnded s

/-- `cancel_vote`: remove an existing vote pre-deadline (`≥` here) outside
the removal-threshold window; note that the `checked_pow` guard runs only
after the proposal and vote storage writes. -/
def cancel_vote (cfg : Config) (now : BlockNumber) (who : AccountId)
    (pid : ProposalId) (s : PalletState) : Outcome :=
  match get_proposal s pid with
  | none => Outcome.err Error.ProposalNotFound s
  | some proposal =>
    match alookup s.votes (who, pid) with
    | none => Outcome.err Error.VoteNotFound s
    | some vote0 =>
      if proposal.time_period ≥ now ∧ proposal.status = ProposalStatus.InProgress then
        match passed_removal_threshold cfg now proposal.time_period with
        | none => Outcome.trap
        | some true => Outcome.err Error.PassedRemovalThreshold s
        | some false =>
          match checked_pow2 (decisionAmount vote0.vote_decision) with
          | none =>
            Outcome.err Error.Overflow { s with
              proposals := ainsert s.proposals pid (subOldSide proposal vote0.vote_decision),
              votes := aerase s.votes (who, pid) }
          | some amount_to_unreserve =>
            Outcome.ok (unreserveBal { s with
              proposals := ainsert s.proposals pid (subOldSide proposal vote0.vote_decision),
              votes := aerase s.votes (who, pid) } who amount_to_unreserve)
      else Outcome.err Error.ProposalAlreadyEnded s

/-- `finish_proposal`: any registered caller, strictly past the deadline,
from `InProgress`; verdict by `ayes.cmp(nays)`. -/
def finish_proposal (cfg : Config) (now : BlockNumber) (who : AccountId)
    (pid : ProposalId) (s : PalletState) : Outcome :=
  if is_registered s who = false then Outcome.err Error.VoterIsNotRegistered s else
  match get_proposal s pid with
  | none => Outcome.err Error.ProposalNotFound s
  | some proposal =>
    if proposal.time_period < now ∧ proposal.status = ProposalStatus.InProgress then
      Outcome.ok { s with
        proposals := ainsert s.proposals pid { proposal with status :=
          if proposal.ayes < proposal.nays then ProposalStatus.Rejected
          else if proposal.nays < proposal.ayes then ProposalStatus.Passed
          else ProposalStatus.Tied } }
    else Outcome.err Error.ProposalAlreadyEnded s

/-- `unlock_balance`: once the proposal left `InProgress`, flip `locked` to
`false` and unreserve `n²`; the `checked_pow` guard again runs after the
vote-record write. -/
def unlock_balance (cfg : Config) (who : AccountId) (pid : ProposalId)
    (s : PalletState) : Outcome :=
  match get_proposal s pid with
  | none => Outcome.err Error.ProposalNotFound s
  | some proposal =>
    if proposal.status = ProposalStatus.InProgress then Outcome.err Error.ProposalInProgress s else
    match alookup s.votes (who, pid) with
    | none => Outcome.err Error.VoteNotFound s
    | some vote0 =>
      if vote0.locked then
        match checked_pow2 (decisionAmount vote0.vote_decision) with
        | none =>
          Outcome.err Error.Overflow { s with
            votes := ainsert s.votes (who, pid) ⟨vote0.vote_decision, false⟩ }
        | some amount_to_unreserve =>
          Outcome.ok (unreserveBal { s with
            votes := ainsert s.votes (who, pid) ⟨vote0.vote_decision, false⟩ }
            who amount_to_unreserve)
      else Outcome.err Error.BalanceAlreadyUnocked s

/-! ### Operations, reachability -/

/-- One extrinsic call with its arguments. -/
inductive Op where
  | registerVoter (isRoot : Bool) (who : AccountId)
  | makeProposal (who : AccountId) (description : Nat) (time_period : BlockNumber)
  | increaseProposalTime (who : AccountId) (pid : ProposalId) (new_time_period : BlockNumber)
  | cancelProposal (who : AccountId) (pid : ProposalId)
  | voteOp (who : AccountId) (pid : ProposalId) (vote_decision : VoteDecision)
  | updateVoteOp (who : AccountId) (pid : ProposalId) (new_vote_decision : VoteDecision)
  | cancelVoteOp (who : AccountId) (pid : ProposalId)
  | finishProposal (who : AccountId) (pid : ProposalId)
  | unlockBalance (who : AccountId) (pid : ProposalId)
deriving DecidableEq, Repr

/-- Dispatch one call at external time `now`. -/
def applyOp (cfg : Config) (now : BlockNumber) : Op → PalletState → Outcome
  | Op.registerVoter isRoot who, s => register_voter cfg isRoot who s
  | Op.makeProposal who d tp, s => make_proposal cfg now who d tp s
  | Op.increaseProposalTime who pid tp, s => increase_proposal_time cfg now who pid tp s
  | Op.cancelProposal who pid, s => cancel_proposal cfg now who pid s
  | Op.voteOp who pid vd, s => vote cfg now who pid vd s
  | Op.updateVoteOp who pid vd, s => update_vote cfg now who pid vd s
  | Op.cancelVoteOp who pid, s => cancel_vote cfg now who pid s
  | Op.finishProposal who pid, s => finish_proposal cfg now who pid s
  | Op.unlockBalance who pid, s => unlock_balance cfg who pid s

/-- Genesis: empty pallet storage, arbitrary free balances, nothing reserved. -/
def initState (free0 : List (AccountId × Nat)) : PalletState :=
  ⟨[], none, [], [], none, free0, []⟩

/-- States reachable from genesis by successful extrinsics, each call
reading an arbitrary external clock value. -/
inductive Reachable (cfg : Config) : PalletState → Prop where
  | init (free0 : List (AccountId × Nat)) : Reachable cfg (initState free0)
  | step {s s' : PalletState} (now : BlockNumber) (op : Op) :
      Reachable cfg s → applyOp cfg now op s = Outcome.ok s' → Reachable cfg s'

/-- Reflexive-transitive closure of successful calls from a given state. -/
inductive ReachableFrom (cfg : Config) : PalletState → PalletState → Prop where
  | refl (s : PalletState) : ReachableFrom cfg s s
  | step {s s' s'' : PalletState} (now : BlockNumber) (op : Op) :
      ReachableFrom cfg s s' → applyOp cfg now op s' = Outcome.ok s'' →
      ReachableFrom cfg s s''

/-! ### Derived accounting quantities -/

/-- Collateral attributable to an account's locked votes: the sum of `n²`
over its vote records with `locked = true`. -/
def lockedSum (votes : List ((AccountId × ProposalId) × Vote)) (a : AccountId) : Nat :=
  asum (fun k v =>
    if k.1 = a ∧ v.locked = true then
      decisionAmount v.vote_decision * decisionAmount v.vote_decision
    else 0) votes

/-- Sum of magnitudes of the votes on one side of one proposal. -/
def sideSum (votes : List ((AccountId × ProposalId) × Vote)) (pid : ProposalId)
    (aye : Bool) : Nat :=
  asum (fun k v =>
    if k.2 = pid ∧ isAye v.vote_decision = aye then decisionAmount v.vote_decision
    else 0) votes

/-- Contribution of an optional entry. -/
def optContrib {K V : Type} (f : K → V → Nat) (k : K) : Option V → Nat
  | none => 0
  | some v => f k v

/-- Largest magnitude a stored vote can carry: it passed both the
`VoteLimit` check and the `checked_pow` square check (so it is at most
`65535`). -/
def magCap (cfg : Config) : Nat := min cfg.voteLimit 65535

/-- The state invariant of the governance engine, preserved by every
successful call and true at genesis:

distinct storage keys; every stored vote has magnitude in
`[1, VoteLimit]` with its square in u32 range, a registered voter, an
existing parent proposal, and is locked while that proposal is
`InProgress`; each account's reserved balance equals the sum of `n²`
over its locked votes; each proposal's `ayes`/`nays` equal the side
sums of its live votes; proposers are registered; proposal ids never
exceed the counter; and the voter count mirrors the registry size,
capped by `MaxVoters`. -/
structure Inv (cfg : Config) (s : PalletState) : Prop where
  ndVotes : NodupKeys s.votes
  ndProposals : NodupKeys s.proposals
  voteMag : ∀ e ∈ s.votes, 1 ≤ decisionAmount e.2.vote_decision ∧
    decisionAmount e.2.vote_decision ≤ cfg.voteLimit ∧
    decisionAmount e.2.vote_decision * decisionAmount e.2.vote_decision ≤ u32Max
  voteReg : ∀ e ∈ s.votes, (alookup s.registeredVoters e.1.1).isSome
  votePid : ∀ e ∈ s.votes, (alookup s.proposals e.1.2).isSome
  voteLocked : ∀ e ∈ s.votes, ∀ p, alookup s.proposals e.1.2 = some p →
    p.status = ProposalStatus.InProgress → e.2.locked = true
  reservedEq : ∀ a, getBal s.reservedBal a = lockedSum s.votes a
  tallyEq : ∀ pid p, alookup s.proposals pid = some p →
    p.ayes = sideSum s.votes pid true ∧ p.nays = sideSum s.votes pid false
  proposerReg : ∀ pid p, alookup s.proposals pid = some p →
    (alookup s.registeredVoters p.proposer).isSome
  pidLe : ∀ pid p, alookup s.proposals pid = some p → pid ≤ s.proposalCounter.getD 0
  amountEq : s.amountVoters.getD 0 = min s.registeredVoters.length u32Max
  lenBound : cfg.maxVoters ≤ u32Max → s.registeredVoters.length ≤ cfg.maxVoters

/-- Switch the side of a decision, keeping its magnitude. -/
def flipDecision : VoteDecision → VoteDecision
  | VoteDecision.Aye n => VoteDecision.Nay n
  | VoteDecision.Nay n => VoteDecision.Aye n

/-! ### Concrete configurations and states used as examples -/

def cfgW : Config := ⟨5, 100, 10⟩

def sW0 : PalletState := initState [(1, 25), (2, 25)]

def sW1 : PalletState := ⟨[(1, ())], some 1, [], [], none, [(1, 25), (2, 25)], []⟩

def pW2 : Proposal := ⟨1, 1, 7, 10, ProposalStatus.InProgress, 0, 0⟩

def sW2 : PalletState :=
  ⟨[(1, ())], some 1, [(1, pW2)], [], some 1, [(1, 25), (2, 25)], []⟩

def pW3 : Proposal := ⟨1, 1, 7, 10, ProposalStatus.InProgress, 2, 0⟩

def sW3 : PalletState :=
  ⟨[(1, ())], some 1, [(1, pW3)], [((1, 1), ⟨VoteDecision.Aye 2, true⟩)], some 1,
    [(1, 21), (2, 25)], [(1, 4)]⟩

def pW4 : Proposal := ⟨1, 1, 7, 10, ProposalStatus.Passed, 2, 0⟩

def sW4 : PalletState :=
  ⟨[(1, ())], some 1, [(1, pW4)], [((1, 1), ⟨VoteDecision.Aye 2, true⟩)], some 1,
    [(1, 21), (2, 25)], [(1, 4)]⟩

def sW5 : PalletState :=
  ⟨[(1, ())], some 1, [(1, pW4)], [((1, 1), ⟨VoteDecision.Aye 2, false⟩)], some 1,
    [(1, 25), (2, 25)], [(1, 0)]⟩

def pWc : Proposal := ⟨1, 1, 7, 10, ProposalStatus.Canceled, 0, 0⟩

def sWc : PalletState :=
  ⟨[(1, ())], some 1, [(1, pWc)], [], some 1, [(1, 25), (2, 25)], []⟩

def cfgX : Config := ⟨2, 10, 5⟩

def sX1 : PalletState := ⟨[(1, ())], some 1, [], [], none, [(1, 25), (2, 25)], []⟩

def sX2 : PalletState :=
  ⟨[(2, ()), (1, ())], some 2, [], [], none, [(1, 25), (2, 25)], []⟩

def sX3 : PalletState :=
  ⟨[(2, ()), (1, ())], some 2, [(1, ⟨1, 1, 7, 10, ProposalStatus.InProgress, 0, 0⟩)],
    [], some 1, [(1, 25), (2, 25)], []⟩

def sX4 : PalletState :=
  ⟨[(2, ()), (1, ())], some 2, [(1, ⟨1, 1, 7, 10, ProposalStatus.InProgress, 1, 0⟩)],
    [((1, 1), ⟨VoteDecision.Aye 1, true⟩)], some 1, [(1, 24), (2, 25)], [(1, 1)]⟩

def sX5 : PalletState :=
  ⟨[(2, ()), (1, ())], some 2, [(1, ⟨1, 1, 7, 10, ProposalStatus.InProgress, 1, 1⟩)],
    [((2, 1), ⟨VoteDecision.Nay 1, true⟩), ((1, 1), ⟨VoteDecision.Aye 1, true⟩)],
    some 1, [(2, 24), (1, 24)], [(2, 1), (1, 1)]⟩

/-! ### Association-list lemmas -/

section AList

variable {K V : Type} [DecidableEq K]

theorem aerase_eq_filter (l : List (K × V)) (k : K) :
    aerase l k = l.filter (fun e => decide (e.1 ≠ k)) := by
  induction l with
  | nil => rfl
  | cons hd t ih =>
    obtain ⟨k', v⟩ := hd
    by_cases hk : k' = k
    · subst hk; simp [aerase, ih]
    · simp [aerase, hk, ih]

theorem mem_aerase {l : List (K × V)} {k : K} {e : K × V} :
    e ∈ aerase l k ↔ e ∈ l ∧ e.1 ≠ k := by
  rw [aerase_eq_filter]
  simp [List.mem_filter]

theorem alookup_eq_none_iff {l : List (K × V)} {k : K} :
    alookup l k = none ↔ k ∉ l.map Prod.fst := by
  induction l with
  | nil => simp [alookup]
  | cons hd t ih =>
    obtain ⟨k', v⟩ := hd
    by_cases hk : k' = k
    · subst hk; simp [alookup]
    · simp [alookup, if_neg hk, ih, Ne.symm hk]

theorem aerase_of_not_mem {l : List (K × V)} {k : K}
    (h : alookup l k = none) : aerase l k = l := by
  induction l with
  | nil => rfl
  | cons hd t ih =>
    obtain ⟨k', v⟩ := hd
    simp only [alookup] at h
    by_cases hk : k' = k
    · rw [if_pos hk] at h; exact absurd h (by simp)
    · rw [if_neg hk] at h
      simp [aerase, if_neg hk, ih h]

theorem alookup_aerase_self (l : List (K × V)) (k : K) :
    alookup (aerase l k) k = none := by
  induction l with
  | nil => rfl
  | cons hd t ih =>
    obtain ⟨k', v⟩ := hd
    by_cases hk : k' = k
    · simpa [aerase, if_pos hk]
    · simp [aerase, if_neg hk, alookup, hk, ih]

theorem alookup_aerase_ne {k k' : K} (h : k' ≠ k) (l : List (K × V)) :
    alookup (aerase l k) k' = alookup l k' := by
  induction l with
  | nil => rfl
  | cons hd t ih =>
    obtain ⟨k'', v⟩ := hd
    by_cases hk : k'' = k
    · subst hk
      simp [aerase, if_pos rfl, alookup, if_neg (Ne.symm h), ih]
    · by_cases hk2 : k'' = k'
      · simp [aerase, if_neg hk, alookup, if_pos hk2]
      · simp [aerase, if_neg hk, alookup, if_neg hk2, ih]

theorem alookup_ainsert_self (l : List (K × V)) (k : K) (v : V) :
    alookup (ainsert l k v) k = some v := by
  simp [ainsert, alookup]

theorem alookup_ainsert_ne {k k' : K} (h : k' ≠ k) (l : List (K × V)) (v : V) :
    alookup (ainsert l k v) k' = alookup l k' := by
  simp [ainsert, alookup, if_neg (Ne.symm h), alookup_aerase_ne h]

theorem alookup_mem {l : List (K × V)} {k : K} {v : V}
    (h : alookup l k = some v) : (k, v) ∈ l := by
  induction l with
  | nil => exact absurd h (by simp [alookup])
  | cons hd t ih =>
    obtain ⟨k', v'⟩ := hd
    simp only [alookup] at h
    by_cases hk : k' = k
    · rw [if_pos hk] at h
      subst hk
      cases h
      exact List.mem_cons_self _ _
    · rw [if_neg hk] at h
      exact List.mem_cons_of_mem _ (ih h)

theorem keys_aerase_sublist (l : List (K × V)) (k : K) :
    ((aerase l k).map Prod.fst).Sublist (l.map Prod.fst) := by
  induction l with
  | nil => simp [aerase]
  | cons hd t ih =>
    obtain ⟨k', v⟩ := hd
    by_cases hk : k' = k
    · simpa [aerase, if_pos hk] using ih.trans (List.sublist_cons_self _ _)
    · simpa [aerase, if_neg hk] using ih.cons₂ k'

theorem nodupKeys_aerase {l : List (K × V)} (h : NodupKeys l) (k : K) :
    NodupKeys (aerase l k) :=
  (keys_aerase_sublist l k).nodup h

theorem nodupKeys_ainsert {l : List (K × V)} (h : NodupKeys l) (k : K) (v : V) :
    NodupKeys (ainsert l k v) := by
  refine List.nodup_cons.mpr ⟨?_, nodupKeys_aerase h k⟩
  exact alookup_eq_none_iff.mp (alookup_aerase_self l k)

theorem asum_ainsert (f : K → V → Nat) (l : List (K × V)) (k : K) (v : V) :
    asum f (ainsert l k v) = f k v + asum f (aerase l k) := rfl

theorem asum_aerase (f : K → V → Nat) {l : List (K × V)} (k : K)
    (h : NodupKeys l) :
    asum f l = optContrib f k (alookup l k) + asum f (aerase l k) := by
  induction l with
  | nil => rfl
  | cons hd t ih =>
    obtain ⟨k', v⟩ := hd
    have hnd : NodupKeys t := (List.nodup_cons.mp h).2
    by_cases hk : k' = k
    · subst hk
      have hnone : alookup t k' = none :=
        alookup_eq_none_iff.mpr (List.nodup_cons.mp h).1
      simp [alookup, aerase, optContrib, asum, aerase_of_not_mem hnone]
    · simp only [alookup, if_neg hk, aerase, if_neg hk, asum, ih hnd]
      omega

theorem asum_congr {f g : K → V → Nat} {l : List (K × V)}
    (h : ∀ e ∈ l, f e.1 e.2 = g e.1 e.2) : asum f l = asum g l := by
  induction l with
  | nil => rfl
  | cons hd t ih =>
    simp only [asum, h hd (List.mem_cons_self _ _),
      ih (fun e he => h e (List.mem_cons_of_mem _ he))]

theorem asum_eq_zero {f : K → V → Nat} {l : List (K × V)}
    (h : ∀ e ∈ l, f e.1 e.2 = 0) : asum f l = 0 := by
  induction l with
  | nil => rfl
  | cons hd t ih =>
    simp [asum, h hd (List.mem_cons_self _ _),
      ih (fun e he => h e (List.mem_cons_of_mem _ he))]

theorem contrib_le_asum {f : K → V → Nat} {l : List (K × V)} {k : K} {v : V}
    (hn : NodupKeys l) (h : alookup l k = some v) : f k v ≤ asum f l := by
  rw [asum_aerase f k hn, h]
  exact Nat.le_add_right _ _

theorem asum_le_length_mul {f : K → V → Nat} {l : List (K × V)} {M : Nat}
    (h : ∀ e ∈ l, f e.1 e.2 ≤ M) : asum f l ≤ l.length * M := by
  induction l with
  | nil => simp [asum]
  | cons hd t ih =>
    have := h hd (List.mem_cons_self _ _)
    have := ih (fun e he => h e (List.mem_cons_of_mem _ he))
    simp only [asum, List.length_cons]
    calc f hd.1 hd.2 + asum f t ≤ M + t.length * M := by omega
    _ = (t.length + 1) * M := by ring

theorem asum_filter (f : K → V → Nat) (p : K × V → Bool) {l : List (K × V)}
    (h : ∀ e ∈ l, p e = false → f e.1 e.2 = 0) :
    asum f l = asum f (l.filter p) := by
  induction l with
  | nil => rfl
  | cons hd t ih =>
    by_cases hp : p hd = true
    · simp only [List.filter_cons, hp, if_pos trivial, asum]
      rw [ih (fun e he hf => h e (List.mem_cons_of_mem _ he) hf)]
    · have hz := h hd (List.mem_cons_self _ _) (Bool.not_eq_true _ ▸ hp)
      simp only [List.filter_cons, asum, hz, Bool.not_eq_true] at hp ⊢
      rw [hp]
      simpa using ih (fun e he hf => h e (List.mem_cons_of_mem _ he) hf)

theorem getBal_ainsert_self (l : List (AccountId × Nat)) (a : AccountId) (n : Nat) :
    getBal (ainsert l a n) a = n := by
  simp [getBal, alookup_ainsert_self]

theorem getBal_ainsert_ne {a a' : AccountId} (h : a' ≠ a)
    (l : List (AccountId × Nat)) (n : Nat) :
    getBal (ainsert l a n) a' = getBal l a' := by
  simp [getBal, alookup_ainsert_ne h]

end AList

/-! ### Small characterization lemmas for the arithmetic and balance helpers -/

theorem checked_pow2_some {n m : Nat} (h : checked_pow2 n = some m) :
    m = n * n ∧ n * n ≤ u32Max := by
  unfold checked_pow2 at h
  split at h
  · rename_i hc
    injection h with h2
    exact ⟨h2.symm, hc⟩
  · exact Option.noConfusion h

theorem checked_pow2_of_le {n : Nat} (h : n * n ≤ u32Max) :
    checked_pow2 n = some (n * n) := by
  unfold checked_pow2
  rw [if_pos h]

theorem tallyAddSide_some_fields {p : Proposal} {d : VoteDecision} {p2 : Proposal}
    (h : tallyAddSide p d = some p2) :
    p2.id = p.id ∧ p2.proposer = p.proposer ∧ p2.text = p.text ∧
    p2.time_period = p.time_period ∧ p2.status = p.status := by
  cases d with
  | Aye v =>
    simp only [tallyAddSide] at h
    split at h
    · injection h with h2
      subst h2
      exact ⟨rfl, rfl, rfl, rfl, rfl⟩
    · exact Option.noConfusion h
  | Nay v =>
    simp only [tallyAddSide] at h
    split at h
    · injection h with h2
      subst h2
      exact ⟨rfl, rfl, rfl, rfl, rfl⟩
    · exact Option.noConfusion h

theorem tallyAddSide_aye {p : Proposal} {v : Nat} {p2 : Proposal}
    (h : tallyAddSide p (VoteDecision.Aye v) = some p2) :
    p2.ayes = p.ayes + v ∧ p2.nays = p.nays ∧ p.ayes + v ≤ u32Max := by
  simp only [tallyAddSide] at h
  split at h
  · rename_i hc
    injection h with h2
    subst h2
    exact ⟨rfl, rfl, hc⟩
  · exact Option.noConfusion h

theorem tallyAddSide_nay {p : Proposal} {v : Nat} {p2 : Proposal}
    (h : tallyAddSide p (VoteDecision.Nay v) = some p2) :
    p2.nays = p.nays + v ∧ p2.ayes = p.ayes ∧ p.nays + v ≤ u32Max := by
  simp only [tallyAddSide] at h
  split at h
  · rename_i hc
    injection h with h2
    subst h2
    exact ⟨rfl, rfl, hc⟩
  · exact Option.noConfusion h

theorem tallyAddSide_aye_of_le {p : Proposal} {v : Nat} (h : p.ayes + v ≤ u32Max) :
    tallyAddSide p (VoteDecision.Aye v) = some { p with ayes := p.ayes + v } := by
  simp only [tallyAddSide]
  rw [if_pos h]

theorem tallyAddSide_nay_of_le {p : Proposal} {v : Nat} (h : p.nays + v ≤ u32Max) :
    tallyAddSide p (VoteDecision.Nay v) = some { p with nays := p.nays + v } := by
  simp only [tallyAddSide]
  rw [if_pos h]

theorem subOldSide_fields (p : Proposal) (d : VoteDecision) :
    (subOldSide p d).id = p.id ∧ (subOldSide p d).proposer = p.proposer ∧
    (subOldSide p d).text = p.text ∧ (subOldSide p d).time_period = p.time_period ∧
    (subOldSide p d).status = p.status := by
  cases d <;> exact ⟨rfl, rfl, rfl, rfl, rfl⟩

theorem subOldSide_aye (p : Proposal) (v : Nat) :
    subOldSide p (VoteDecision.Aye v) = { p with ayes := p.ayes - v } := rfl

theorem subOldSide_nay (p : Proposal) (v : Nat) :
    subOldSide p (VoteDecision.Nay v) = { p with nays := p.nays - v } := rfl

theorem reserveBal_some {s : PalletState} {who : AccountId} {amt : Nat}
    {s1 : PalletState} (h : reserveBal s who amt = some s1) :
    amt ≤ getBal s.freeBal who ∧
    s1 = { s with
      freeBal := ainsert s.freeBal who (getBal s.freeBal who - amt),
      reservedBal := ainsert s.reservedBal who (getBal s.reservedBal who + amt) } := by
  unfold reserveBal at h
  split at h
  · rename_i hc
    injection h with h2
    exact ⟨hc, h2.symm⟩
  · exact Option.noConfusion h

theorem reserveBal_of_le {s : PalletState} {who : AccountId} {amt : Nat}
    (h : amt ≤ getBal s.freeBal who) :
    reserveBal s who amt = some { s with
      freeBal := ainsert s.freeBal who (getBal s.freeBal who - amt),
      reservedBal := ainsert s.reservedBal who (getBal s.reservedBal who + amt) } := by
  unfold reserveBal
  rw [if_pos h]

theorem isSome_alookup_ainsert {K V : Type} [DecidableEq K]
    (l : List (K × V)) (k k' : K) (v : V) (h : (alookup l k').isSome) :
    (alookup (ainsert l k v) k').isSome := by
  by_cases hk : k' = k
  · subst hk
    simp [alookup_ainsert_self]
  · rw [alookup_ainsert_ne hk]
    exact h


/-! ### Success characterizations of the nine dispatchables -/

theorem vote_ok {cfg : Config} {now : BlockNumber} {who : AccountId}
    {pid : ProposalId} {vd : VoteDecision} {s s' : PalletState}
    (h : vote cfg now who pid vd s = Outcome.ok s') :
    is_registered s who = true ∧
    ∃ p s1 p2, get_proposal s pid = some p ∧
      now < p.time_period ∧ p.status = ProposalStatus.InProgress ∧
      vote_casted s who pid = false ∧
      0 < decisionAmount vd ∧ decisionAmount vd ≤ cfg.voteLimit ∧
      decisionAmount vd * decisionAmount vd ≤ u32Max ∧
      reserveBal s who (decisionAmount vd * decisionAmount vd) = some s1 ∧
      tallyAddSide p vd = some p2 ∧
      s' = { s1 with
        votes := ainsert s1.votes (who, pid) ⟨vd, true⟩,
        proposals := ainsert s1.proposals pid p2 } := by
  unfold vote at h
  split at h
  · exact Outcome.noConfusion h
  rename_i hreg
  split at h
  · exact Outcome.noConfusion h
  rename_i x p hp
  split at h
  · rename_i hcond
    split at h
    · exact Outcome.noConfusion h
    rename_i hcast
    split at h
    · rename_i hpos
      split at h
      · rename_i hlim
        split at h
        · exact Outcome.noConfusion h
        rename_i y amt hpow
        split at h
        · exact Outcome.noConfusion h
        rename_i z s1 hres
        split at h
        · exact Outcome.noConfusion h
        rename_i w p2 htas
        injection h with h6
        obtain ⟨ham, hle⟩ := checked_pow2_some hpow
        subst ham
        exact ⟨by simpa using hreg, p, s1, p2, hp, hcond.1, hcond.2,
          by simpa using hcast, hpos, hlim, hle, hres, htas, h6.symm⟩
      · exact Outcome.noConfusion h
    · exact Outcome.noConfusion h
  · exact Outcome.noConfusion h

theorem increase_proposal_time_ok {cfg : Config} {now : BlockNumber}
    {who : AccountId} {pid : ProposalId} {ntp : BlockNumber} {s s' : PalletState}
    (h : increase_proposal_time cfg now who pid ntp s = Outcome.ok s') :
    is_registered s who = true ∧ ∃ p, get_proposal s pid = some p ∧
      p.proposer = who ∧ p.time_period < ntp ∧ now < ntp ∧
      s' = { s with
        proposals := ainsert s.proposals pid ({ p with time_period := ntp }) } := by
  unfold increase_proposal_time at h
  split at h
  · exact Outcome.noConfusion h
  rename_i hreg
  split at h
  · exact Outcome.noConfusion h
  rename_i x p hp
  split at h
  · exact Outcome.noConfusion h
  rename_i hprop
  split at h
  · rename_i h3
    split at h
    · rename_i h4
      injection h with h5
      refine ⟨by simpa using hreg, p, hp, ?_, h3, h4, h5.symm⟩
      have := of_decide_eq_true (Bool.not_eq_false _ |>.mp hprop)
      exact this
    · exact Outcome.noConfusion h
  · exact Outcome.noConfusion h

theorem cancel_proposal_ok {cfg : Config} {now : BlockNumber} {who : AccountId}
    {pid : ProposalId} {s s' : PalletState}
    (h : cancel_proposal cfg now who pid s = Outcome.ok s') :
    ∃ p, get_proposal s pid = some p ∧ p.proposer = who ∧
      p.status = ProposalStatus.InProgress ∧ now < p.time_period ∧
      s' = { s with
        proposals := ainsert s.proposals pid
          ({ p with status := ProposalStatus.Canceled }) } := by
  unfold cancel_proposal at h
  split at h
  · exact Outcome.noConfusion h
  rename_i x p hp
  split at h
  · exact Outcome.noConfusion h
  rename_i hprop
  split at h
  · rename_i h2
    split at h
    · rename_i h3
      injection h with h4
      exact ⟨p, hp, of_decide_eq_true (Bool.not_eq_false _ |>.mp hprop), h2, h3, h4.symm⟩
    · exact Outcome.noConfusion h
  · exact Outcome.noConfusion h

theorem passed_removal_threshold_false {cfg : Config} {now tp : BlockNumber}
    (h : passed_removal_threshold cfg now tp = some false) :
    cfg.voteRemovalThreshold ≤ tp - now := by
  unfold passed_removal_threshold at h
  split at h
  · injection h with h2
    exact Nat.le_of_not_lt (of_decide_eq_false h2)
  · exact Option.noConfusion h

theorem passed_removal_threshold_true {cfg : Config} {now tp : BlockNumber}
    (h : passed_removal_threshold cfg now tp = some true) :
    tp - now < cfg.voteRemovalThreshold := by
  unfold passed_removal_threshold at h
  split at h
  · injection h with h2
    exact of_decide_eq_true h2
  · exact Option.noConfusion h

theorem passed_removal_threshold_eq {cfg : Config} {now tp : BlockNumber}
    (h : now ≤ tp) :
    passed_removal_threshold cfg now tp = some (decide (tp - now < cfg.voteRemovalThreshold)) := by
  unfold passed_removal_threshold
  rw [if_pos h]

theorem update_vote_tail_ok {cfg : Config} {who : AccountId} {pid : ProposalId}
    {nvd : VoteDecision} {s : PalletState} {p2 : Proposal} {ca na : Nat}
    {s' : PalletState}
    (h : update_vote_tail cfg who pid nvd s p2 ca na = Outcome.ok s') :
    na ≠ 0 ∧ na ≤ cfg.voteLimit ∧ ca * ca ≤ u32Max ∧ na * na ≤ u32Max ∧
    ((ca < na ∧ ∃ s1, reserveBal s who (na * na - ca * ca) = some s1 ∧
        s' = { s1 with
          votes := ainsert s1.votes (who, pid) ⟨nvd, true⟩,
          proposals := ainsert s1.proposals pid p2 }) ∨
     (na < ca ∧
        s' = { (unreserveBal s who (ca * ca - na * na)) with
          votes := ainsert s.votes (who, pid) ⟨nvd, true⟩,
          proposals := ainsert s.proposals pid p2 }) ∨
     (na = ca ∧
        s' = { s with
          votes := ainsert s.votes (who, pid) ⟨nvd, true⟩,
          proposals := ainsert s.proposals pid p2 })) := by
  unfold update_vote_tail at h
  split at h
  · exact Outcome.noConfusion h
  rename_i h1
  split at h
  · rename_i h2
    split at h
    · exact Outcome.noConfusion h
    rename_i x cp hcp
    split at h
    · exact Outcome.noConfusion h
    rename_i y np hnp
    obtain ⟨hcp2, hcple⟩ := checked_pow2_some hcp
    obtain ⟨hnp2, hnple⟩ := checked_pow2_some hnp
    subst hcp2
    subst hnp2
    split at h
    · rename_i h3
      split at h
      · rename_i h4
        split at h
        · exact Outcome.noConfusion h
        rename_i z s1 hres
        injection h with h5
        exact ⟨h1, h2, hcple, hnple, Or.inl ⟨h3, s1, hres, h5.symm⟩⟩
      · exact Outcome.noConfusion h
    · rename_i h3
      split at h
      · rename_i h4
        split at h
        · rename_i h5
          injection h with h6
          exact ⟨h1, h2, hcple, hnple, Or.inr (Or.inl ⟨h4, h6.symm⟩)⟩
        · exact Outcome.noConfusion h
      · rename_i h4
        injection h with h5
        exact ⟨h1, h2, hcple, hnple, Or.inr (Or.inr ⟨by omega, h5.symm⟩)⟩
  · exact Outcome.noConfusion h

theorem update_vote_ok {cfg : Config} {now : BlockNumber} {who : AccountId}
    {pid : ProposalId} {nvd : VoteDecision} {s s' : PalletState}
    (h : update_vote cfg now who pid nvd s = Outcome.ok s') :
    is_registered s who = true ∧
    ∃ p cv p2, get_proposal s pid = some p ∧ now < p.time_period ∧
      p.status = ProposalStatus.InProgress ∧
      alookup s.votes (who, pid) = some cv ∧
      tallyAddSide (subOldSide p cv.vote_decision) nvd = some p2 ∧
      (decisionAmount nvd < decisionAmount cv.vote_decision →
        cfg.voteRemovalThreshold ≤ p.time_period - now) ∧
      update_vote_tail cfg who pid nvd s p2 (decisionAmount cv.vote_decision)
        (decisionAmount nvd) = Outcome.ok s' := by
  unfold update_vote at h
  split at h
  · exact Outcome.noConfusion h
  rename_i hreg
  split at h
  · exact Outcome.noConfusion h
  rename_i x p hp
  split at h
  · rename_i hcond
    split at h
    · exact Outcome.noConfusion h
    rename_i y cv hcv
    split at h
    · exact Outcome.noConfusion h
    rename_i z p2 htas
    split at h
    · rename_i hlt
      split at h
      · exact Outcome.noConfusion h
      · exact Outcome.noConfusion h
      · rename_i w hb
        have hb3 := passed_removal_threshold_false hb
        exact ⟨by simpa using hreg, p, cv, p2, hp, hcond.1, hcond.2, hcv, htas,
          fun _ => hb3, h⟩
    · rename_i hge
      exact ⟨by simpa using hreg, p, cv, p2, hp, hcond.1, hcond.2, hcv, htas,
        fun hlt => absurd hlt hge, h⟩
  · exact Outcome.noConfusion h

theorem cancel_vote_ok {cfg : Config} {now : BlockNumber} {who : AccountId}
    {pid : ProposalId} {s s' : PalletState}
    (h : cancel_vote cfg now who pid s = Outcome.ok s') :
    ∃ p cv, get_proposal s pid = some p ∧ alookup s.votes (who, pid) = some cv ∧
      now ≤ p.time_period ∧ p.status = ProposalStatus.InProgress ∧
      cfg.voteRemovalThreshold ≤ p.time_period - now ∧
      decisionAmount cv.vote_decision * decisionAmount cv.vote_decision ≤ u32Max ∧
      s' = { s with
        proposals := ainsert s.proposals pid (subOldSide p cv.vote_decision),
        votes := aerase s.votes (who, pid),
        freeBal := ainsert s.freeBal who (getBal s.freeBal who +
          min (decisionAmount cv.vote_decision * decisionAmount cv.vote_decision)
            (getBal s.reservedBal who)),
        reservedBal := ainsert s.reservedBal who (getBal s.reservedBal who -
          decisionAmount cv.vote_decision * decisionAmount cv.vote_decision) } := by
  unfold cancel_vote at h
  split at h
  · exact Outcome.noConfusion h
  rename_i x p hp
  split at h
  · exact Outcome.noConfusion h
  rename_i y cv hcv
  split at h
  · rename_i hcond
    split at h
    · exact Outcome.noConfusion h
    · exact Outcome.noConfusion h
    · rename_i z hb
      have hb3 := passed_removal_threshold_false hb
      split at h
      · exact Outcome.noConfusion h
      rename_i w amt hpow
      obtain ⟨ham, hle⟩ := checked_pow2_some hpow
      subst ham
      injection h with h2
      exact ⟨p, cv, hp, hcv, hcond.1, hcond.2, hb3, hle, h2.symm⟩
  · exact Outcome.noConfusion h

theorem unlock_balance_ok {cfg : Config} {who : AccountId} {pid : ProposalId}
    {s s' : PalletState} (h : unlock_balance cfg who pid s = Outcome.ok s') :
    ∃ p cv, get_proposal s pid = some p ∧ p.status ≠ ProposalStatus.InProgress ∧
      alookup s.votes (who, pid) = some cv ∧ cv.locked = true ∧
      decisionAmount cv.vote_decision * decisionAmount cv.vote_decision ≤ u32Max ∧
      s' = { s with
        votes := ainsert s.votes (who, pid) ⟨cv.vote_decision, false⟩,
        freeBal := ainsert s.freeBal who (getBal s.freeBal who +
          min (decisionAmount cv.vote_decision * decisionAmount cv.vote_decision)
            (getBal s.reservedBal who)),
        reservedBal := ainsert s.reservedBal who (getBal s.reservedBal who -
          decisionAmount cv.vote_decision * decisionAmount cv.vote_decision) } := by
  unfold unlock_balance at h
  split at h
  · exact Outcome.noConfusion h
  rename_i x p hp
  split at h
  · exact Outcome.noConfusion h
  rename_i hst
  split at h
  · exact Outcome.noConfusion h
  rename_i y cv hcv
  split at h
  · rename_i hlock
    split at h
    · exact Outcome.noConfusion h
    rename_i z amt hpow
    obtain ⟨ham, hle⟩ := checked_pow2_some hpow
    subst ham
    injection h with h2
    exact ⟨p, cv, hp, hst, hcv, hlock, hle, h2.symm⟩
  · exact Outcome.noConfusion h

theorem register_voter_ok {cfg : Config} {r : Bool} {who : AccountId}
    {s s' : PalletState} (h : register_voter cfg r who s = Outcome.ok s') :
    r = true ∧ is_registered s who = false ∧
    s.amountVoters.getD 0 < cfg.maxVoters ∧
    s' = { s with
      registeredVoters := ainsert s.registeredVoters who (),
      amountVoters := some (min (s.amountVoters.getD 0 + 1) u32Max) } := by
  unfold register_voter at h
  split at h
  · exact Outcome.noConfusion h
  rename_i h1
  split at h
  · exact Outcome.noConfusion h
  rename_i h2
  split at h
  · rename_i h3
    injection h with h4
    refine ⟨?_, ?_, h3, h4.symm⟩
    · cases r
      · exact absurd rfl h1
      · rfl
    · simpa using h2
  · exact Outcome.noConfusion h

theorem make_proposal_ok {cfg : Config} {now : BlockNumber} {who : AccountId}
    {d tp : Nat} {s s' : PalletState}
    (h : make_proposal cfg now who d tp s = Outcome.ok s') :
    is_registered s who = true ∧ now < tp ∧ get_proposal_counter s < u32Max ∧
    s' = { s with
      proposals := ainsert s.proposals (get_proposal_counter s + 1)
        (Proposal.new (get_proposal_counter s + 1) who d tp),
      proposalCounter := some (get_proposal_counter s + 1) } := by
  unfold make_proposal at h
  split at h
  · exact Outcome.noConfusion h
  rename_i h1
  split at h
  · rename_i h2
    split at h
    · rename_i h3
      injection h with h4
      exact ⟨by simpa using h1, h2, h3, h4.symm⟩
    · exact Outcome.noConfusion h
  · exact Outcome.noConfusion h

theorem finish_proposal_ok {cfg : Config} {now : BlockNumber} {who : AccountId}
    {pid : ProposalId} {s s' : PalletState}
    (h : finish_proposal cfg now who pid s = Outcome.ok s') :
    is_registered s who = true ∧ ∃ p, get_proposal s pid = some p ∧
      p.time_period < now ∧ p.status = ProposalStatus.InProgress ∧
      s' = { s with
        proposals := ainsert s.proposals pid ({ p with status :=
          if p.ayes < p.nays then ProposalStatus.Rejected
          else if p.nays < p.ayes then ProposalStatus.Passed
          else ProposalStatus.Tied }) } := by
  unfold finish_proposal at h
  split at h
  · exact Outcome.noConfusion h
  rename_i h1
  split at h
  · exact Outcome.noConfusion h
  rename_i x p hp
  split at h
  · rename_i h2
    injection h with h3
    exact ⟨by simpa using h1, p, hp, h2.1, h2.2, h3.symm⟩
  · exact Outcome.noConfusion h
/-! ### Invariant preservation -/

theorem is_registered_false_none {s : PalletState} {who : AccountId}
    (h : is_registered s who = false) : alookup s.registeredVoters who = none := by
  unfold is_registered at h
  cases halo : alookup s.registeredVoters who with
  | none => rfl
  | some v => rw [halo] at h; exact Bool.noConfusion h

theorem vote_casted_false_none {s : PalletState} {who : AccountId} {pid : ProposalId}
    (h : vote_casted s who pid = false) : alookup s.votes (who, pid) = none := by
  unfold vote_casted at h
  cases halo : alookup s.votes (who, pid) with
  | none => rfl
  | some v => rw [halo] at h; exact Bool.noConfusion h

theorem inv_register {cfg : Config} {r : Bool} {who : AccountId} {s s' : PalletState}
    (hi : Inv cfg s) (h : register_voter cfg r who s = Outcome.ok s') : Inv cfg s' := by
  obtain ⟨hr, hnreg, hlt, hs'⟩ := register_voter_ok h
  subst hs'
  have hlen : (ainsert s.registeredVoters who ()).length = s.registeredVoters.length + 1 := by
    unfold ainsert
    rw [aerase_of_not_mem (is_registered_false_none hnreg)]
    simp
  refine ⟨hi.ndVotes, hi.ndProposals, hi.voteMag, ?_, hi.votePid, hi.voteLocked,
    hi.reservedEq, hi.tallyEq, ?_, hi.pidLe, ?_, ?_⟩
  · exact fun e he => isSome_alookup_ainsert _ _ _ _ (hi.voteReg e he)
  · exact fun pid p hp => isSome_alookup_ainsert _ _ _ _ (hi.proposerReg pid p hp)
  · have h1 := hi.amountEq
    simp only [Option.getD_some, hlen]
    omega
  · intro hm
    have h1 := hi.amountEq
    have h2 := hi.lenBound hm
    simp only [hlen]
    omega

theorem inv_make {cfg : Config} {now : BlockNumber} {who : AccountId}
    {d tp : Nat} {s s' : PalletState} (hi : Inv cfg s)
    (h : make_proposal cfg now who d tp s = Outcome.ok s') : Inv cfg s' := by
  obtain ⟨hreg, htp, hcnt, hs'⟩ := make_proposal_ok h
  subst hs'
  have hvotepid : ∀ e ∈ s.votes, e.1.2 ≤ get_proposal_counter s := by
    intro e he
    have h1 := hi.votePid e he
    cases halo : alookup s.proposals e.1.2 with
    | none => rw [halo] at h1; exact Bool.noConfusion h1
    | some p => exact hi.pidLe _ p halo
  have hfreshne : ∀ e ∈ s.votes, e.1.2 ≠ get_proposal_counter s + 1 :=
    fun e he => Nat.ne_of_lt (Nat.lt_succ_of_le (hvotepid e he))
  refine ⟨hi.ndVotes, nodupKeys_ainsert hi.ndProposals _ _, hi.voteMag, hi.voteReg,
    ?_, ?_, hi.reservedEq, ?_, ?_, ?_, hi.amountEq, hi.lenBound⟩
  · exact fun e he => isSome_alookup_ainsert _ _ _ _ (hi.votePid e he)
  · intro e he p hp hst
    rw [alookup_ainsert_ne (hfreshne e he)] at hp
    exact hi.voteLocked e he p hp hst
  · intro pid p hp
    by_cases hpid : pid = get_proposal_counter s + 1
    · subst hpid
      rw [alookup_ainsert_self] at hp
      injection hp with hp2
      subst hp2
      constructor
      · exact (asum_eq_zero (fun e he => by
          rw [if_neg]
          simp only [not_and]
          intro hc
          exact absurd hc (hfreshne e he))).symm
      · exact (asum_eq_zero (fun e he => by
          rw [if_neg]
          simp only [not_and]
          intro hc
          exact absurd hc (hfreshne e he))).symm
    · rw [alookup_ainsert_ne hpid] at hp
      exact hi.tallyEq pid p hp
  · intro pid p hp
    by_cases hpid : pid = get_proposal_counter s + 1
    · subst hpid
      rw [alookup_ainsert_self] at hp
      injection hp with hp2
      subst hp2
      exact hreg
    · rw [alookup_ainsert_ne hpid] at hp
      exact hi.proposerReg pid p hp
  · intro pid p hp
    show pid ≤ get_proposal_counter s + 1
    by_cases hpid : pid = get_proposal_counter s + 1
    · exact Nat.le_of_eq hpid
    · rw [alookup_ainsert_ne hpid] at hp
      exact Nat.le_succ_of_le (hi.pidLe pid p hp)

theorem verdict_ne_inprogress (a n : Nat) :
    (if a < n then ProposalStatus.Rejected
     else if n < a then ProposalStatus.Passed
     else ProposalStatus.Tied) ≠ ProposalStatus.InProgress := by
  split
  · exact fun hh => ProposalStatus.noConfusion hh
  · split
    · exact fun hh => ProposalStatus.noConfusion hh
    · exact fun hh => ProposalStatus.noConfusion hh

theorem inv_increase {cfg : Config} {now : BlockNumber} {who : AccountId}
    {pid : ProposalId} {ntp : BlockNumber} {s s' : PalletState} (hi : Inv cfg s)
    (h : increase_proposal_time cfg now who pid ntp s = Outcome.ok s') : Inv cfg s' := by
  obtain ⟨hreg, p, hp, hprop, h3, h4, hs'⟩ := increase_proposal_time_ok h
  subst hs'
  refine ⟨hi.ndVotes, nodupKeys_ainsert hi.ndProposals _ _, hi.voteMag, hi.voteReg,
    ?_, ?_, hi.reservedEq, ?_, ?_, ?_, hi.amountEq, hi.lenBound⟩
  · exact fun e he => isSome_alookup_ainsert _ _ _ _ (hi.votePid e he)
  · intro e he q hq hst
    by_cases he2 : e.1.2 = pid
    · rw [he2, alookup_ainsert_self] at hq
      injection hq with hq2
      subst hq2
      exact hi.voteLocked e he p (he2 ▸ hp) hst
    · rw [alookup_ainsert_ne he2] at hq
      exact hi.voteLocked e he q hq hst
  · intro q r hq
    by_cases hq2 : q = pid
    · subst hq2
      rw [alookup_ainsert_self] at hq
      injection hq with hq3
      subst hq3
      exact hi.tallyEq q p hp
    · rw [alookup_ainsert_ne hq2] at hq
      exact hi.tallyEq q r hq
  · intro q r hq
    by_cases hq2 : q = pid
    · subst hq2
      rw [alookup_ainsert_self] at hq
      injection hq with hq3
      subst hq3
      exact hi.proposerReg q p hp
    · rw [alookup_ainsert_ne hq2] at hq
      exact hi.proposerReg q r hq
  · intro q r hq
    show q ≤ s.proposalCounter.getD 0
    by_cases hq2 : q = pid
    · subst hq2
      exact hi.pidLe q p hp
    · rw [alookup_ainsert_ne hq2] at hq
      exact hi.pidLe q r hq

theorem inv_cancel_proposal {cfg : Config} {now : BlockNumber} {who : AccountId}
    {pid : ProposalId} {s s' : PalletState} (hi : Inv cfg s)
    (h : cancel_proposal cfg now who pid s = Outcome.ok s') : Inv cfg s' := by
  obtain ⟨p, hp, hprop, hst0, h3, hs'⟩ := cancel_proposal_ok h
  subst hs'
  refine ⟨hi.ndVotes, nodupKeys_ainsert hi.ndProposals _ _, hi.voteMag, hi.voteReg,
    ?_, ?_, hi.reservedEq, ?_, ?_, ?_, hi.amountEq, hi.lenBound⟩
  · exact fun e he => isSome_alookup_ainsert _ _ _ _ (hi.votePid e he)
  · intro e he q hq hst
    by_cases he2 : e.1.2 = pid
    · rw [he2, alookup_ainsert_self] at hq
      injection hq with hq2
      subst hq2
      exact absurd hst (fun hh => ProposalStatus.noConfusion hh)
    · rw [alookup_ainsert_ne he2] at hq
      exact hi.voteLocked e he q hq hst
  · intro q r hq
    by_cases hq2 : q = pid
    · subst hq2
      rw [alookup_ainsert_self] at hq
      injection hq with hq3
      subst hq3
      exact hi.tallyEq q p hp
    · rw [alookup_ainsert_ne hq2] at hq
      exact hi.tallyEq q r hq
  · intro q r hq
    by_cases hq2 : q = pid
    · subst hq2
      rw [alookup_ainsert_self] at hq
      injection hq with hq3
      subst hq3
      exact hi.proposerReg q p hp
    · rw [alookup_ainsert_ne hq2] at hq
      exact hi.proposerReg q r hq
  · intro q r hq
    show q ≤ s.proposalCounter.getD 0
    by_cases hq2 : q = pid
    · subst hq2
      exact hi.pidLe q p hp
    · rw [alookup_ainsert_ne hq2] at hq
      exact hi.pidLe q r hq

theorem inv_finish {cfg : Config} {now : BlockNumber} {who : AccountId}
    {pid : ProposalId} {s s' : PalletState} (hi : Inv cfg s)
    (h : finish_proposal cfg now who pid s = Outcome.ok s') : Inv cfg s' := by
  obtain ⟨hreg, p, hp, h2, hst0, hs'⟩ := finish_proposal_ok h
  subst hs'
  refine ⟨hi.ndVotes, nodupKeys_ainsert hi.ndProposals _ _, hi.voteMag, hi.voteReg,
    ?_, ?_, hi.reservedEq, ?_, ?_, ?_, hi.amountEq, hi.lenBound⟩
  · exact fun e he => isSome_alookup_ainsert _ _ _ _ (hi.votePid e he)
  · intro e he q hq hst
    by_cases he2 : e.1.2 = pid
    · rw [he2, alookup_ainsert_self] at hq
      injection hq with hq2
      subst hq2
      exact absurd hst (verdict_ne_inprogress p.ayes p.nays)
    · rw [alookup_ainsert_ne he2] at hq
      exact hi.voteLocked e he q hq hst
  · intro q r hq
    by_cases hq2 : q = pid
    · subst hq2
      rw [alookup_ainsert_self] at hq
      injection hq with hq3
      subst hq3
      exact hi.tallyEq q p hp
    · rw [alookup_ainsert_ne hq2] at hq
      exact hi.tallyEq q r hq
  · intro q r hq
    by_cases hq2 : q = pid
    · subst hq2
      rw [alookup_ainsert_self] at hq
      injection hq with hq3
      subst hq3
      exact hi.proposerReg q p hp
    · rw [alookup_ainsert_ne hq2] at hq
      exact hi.proposerReg q r hq
  · intro q r hq
    show q ≤ s.proposalCounter.getD 0
    by_cases hq2 : q = pid
    · subst hq2
      exact hi.pidLe q p hp
    · rw [alookup_ainsert_ne hq2] at hq
      exact hi.pidLe q r hq

/-! ### Sum bookkeeping for the votes map -/

theorem lockedSum_ainsert (votes : List ((AccountId × ProposalId) × Vote))
    (k1 : AccountId) (k2 : ProposalId) (vt : Vote) (a : AccountId) :
    lockedSum (ainsert votes (k1, k2) vt) a =
    (if k1 = a ∧ vt.locked = true then
      decisionAmount vt.vote_decision * decisionAmount vt.vote_decision else 0) +
    lockedSum (aerase votes (k1, k2)) a := rfl

theorem sideSum_ainsert (votes : List ((AccountId × ProposalId) × Vote))
    (k1 : AccountId) (k2 : ProposalId) (vt : Vote) (pid : ProposalId) (b : Bool) :
    sideSum (ainsert votes (k1, k2) vt) pid b =
    (if k2 = pid ∧ isAye vt.vote_decision = b then decisionAmount vt.vote_decision
     else 0) +
    sideSum (aerase votes (k1, k2)) pid b := rfl

theorem lockedSum_aerase_some {votes : List ((AccountId × ProposalId) × Vote)}
    {k1 : AccountId} {k2 : ProposalId} {cv : Vote} (hn : NodupKeys votes)
    (hk : alookup votes (k1, k2) = some cv) (a : AccountId) :
    lockedSum votes a =
    (if k1 = a ∧ cv.locked = true then
      decisionAmount cv.vote_decision * decisionAmount cv.vote_decision else 0) +
    lockedSum (aerase votes (k1, k2)) a := by
  have := asum_aerase (fun k v =>
    if k.1 = a ∧ v.locked = true then
      decisionAmount v.vote_decision * decisionAmount v.vote_decision
    else 0) (k1, k2) hn
  rw [hk] at this
  exact this

theorem sideSum_aerase_some {votes : List ((AccountId × ProposalId) × Vote)}
    {k1 : AccountId} {k2 : ProposalId} {cv : Vote} (hn : NodupKeys votes)
    (hk : alookup votes (k1, k2) = some cv) (pid : ProposalId) (b : Bool) :
    sideSum votes pid b =
    (if k2 = pid ∧ isAye cv.vote_decision = b then decisionAmount cv.vote_decision
     else 0) +
    sideSum (aerase votes (k1, k2)) pid b := by
  have := asum_aerase (fun k v =>
    if k.2 = pid ∧ isAye v.vote_decision = b then decisionAmount v.vote_decision
    else 0) (k1, k2) hn
  rw [hk] at this
  exact this

theorem inv_vote {cfg : Config} {now : BlockNumber} {who : AccountId}
    {pid : ProposalId} {vd : VoteDecision} {s s' : PalletState} (hi : Inv cfg s)
    (h : vote cfg now who pid vd s = Outcome.ok s') : Inv cfg s' := by
  obtain ⟨hreg, p, s1, p2, hp, htime, hst, hcast, hpos, hlim, hle, hres, htas, hs'⟩ :=
    vote_ok h
  obtain ⟨hbal, hs1⟩ := reserveBal_some hres
  subst hs1
  subst hs'
  have hnone := vote_casted_false_none hcast
  have herase : aerase s.votes (who, pid) = s.votes := aerase_of_not_mem hnone
  obtain ⟨hid, hpr, htx, htp, hsx⟩ := tallyAddSide_some_fields htas
  refine ⟨nodupKeys_ainsert hi.ndVotes _ _, nodupKeys_ainsert hi.ndProposals _ _,
    ?_, ?_, ?_, ?_, ?_, ?_, ?_, ?_, hi.amountEq, hi.lenBound⟩
  · intro e he
    rcases List.mem_cons.mp he with h1 | h1
    · subst h1
      exact ⟨hpos, hlim, hle⟩
    · exact hi.voteMag e (mem_aerase.mp h1).1
  · intro e he
    rcases List.mem_cons.mp he with h1 | h1
    · subst h1
      exact hreg
    · exact hi.voteReg e (mem_aerase.mp h1).1
  · intro e he
    rcases List.mem_cons.mp he with h1 | h1
    · subst h1
      show (alookup (ainsert s.proposals pid p2) pid).isSome
      rw [alookup_ainsert_self]
      rfl
    · exact isSome_alookup_ainsert _ _ _ _ (hi.votePid e (mem_aerase.mp h1).1)
  · intro e he q hq hstq
    rcases List.mem_cons.mp he with h1 | h1
    · subst h1
      rfl
    · obtain ⟨hmem, hne⟩ := mem_aerase.mp h1
      by_cases he2 : e.1.2 = pid
      · rw [he2, alookup_ainsert_self] at hq
        injection hq with hq2
        subst hq2
        exact hi.voteLocked e hmem p (he2 ▸ hp) (hsx ▸ hstq)
      · rw [alookup_ainsert_ne he2] at hq
        exact hi.voteLocked e hmem q hq hstq
  · intro a
    by_cases ha : a = who
    · subst ha
      show getBal (ainsert s.reservedBal a
        (getBal s.reservedBal a + decisionAmount vd * decisionAmount vd)) a = _
      rw [getBal_ainsert_self, lockedSum_ainsert, herase]
      rw [if_pos ⟨rfl, rfl⟩, hi.reservedEq a]
      dsimp only
      omega
    · show getBal (ainsert s.reservedBal who _) a = _
      rw [getBal_ainsert_ne ha, lockedSum_ainsert, herase]
      rw [if_neg (fun hc => ha hc.1.symm)]
      rw [hi.reservedEq a, Nat.zero_add]
  · intro q r hq
    by_cases hq2 : q = pid
    · subst hq2
      rw [alookup_ainsert_self] at hq
      injection hq with hq3
      subst hq3
      obtain ⟨hpa, hpn⟩ := hi.tallyEq q p hp
      cases vd with
      | Aye v =>
        obtain ⟨ha1, ha2, ha3⟩ := tallyAddSide_aye htas
        constructor
        · rw [ha1, sideSum_ainsert, herase, if_pos ⟨rfl, rfl⟩, hpa]
          show sideSum s.votes q true + v = decisionAmount (VoteDecision.Aye v) + _
          show sideSum s.votes q true + v = v + sideSum s.votes q true
          omega
        · rw [ha2, sideSum_ainsert, herase, if_neg (fun hc => Bool.noConfusion hc.2), hpn]
          omega
      | Nay v =>
        obtain ⟨ha1, ha2, ha3⟩ := tallyAddSide_nay htas
        constructor
        · rw [ha2, sideSum_ainsert, herase, if_neg (fun hc => Bool.noConfusion hc.2), hpa]
          omega
        · rw [ha1, sideSum_ainsert, herase, if_pos ⟨rfl, rfl⟩, hpn]
          show sideSum s.votes q false + v = v + sideSum s.votes q false
          omega
    · rw [alookup_ainsert_ne hq2] at hq
      obtain ⟨hpa, hpn⟩ := hi.tallyEq q r hq
      constructor
      · rw [hpa, sideSum_ainsert, herase, if_neg (fun hc => hq2 hc.1.symm)]
        omega
      · rw [hpn, sideSum_ainsert, herase, if_neg (fun hc => hq2 hc.1.symm)]
        omega
  · intro q r hq
    by_cases hq2 : q = pid
    · subst hq2
      rw [alookup_ainsert_self] at hq
      injection hq with hq3
      subst hq3
      rw [hpr]
      exact hi.proposerReg q p hp
    · rw [alookup_ainsert_ne hq2] at hq
      exact hi.proposerReg q r hq
  · intro q r hq
    show q ≤ s.proposalCounter.getD 0
    by_cases hq2 : q = pid
    · subst hq2
      exact hi.pidLe q p hp
    · rw [alookup_ainsert_ne hq2] at hq
      exact hi.pidLe q r hq

/-- Common commit shape of `update_vote`: the vote record is replaced by
`{new_vote_decision, locked: true}`, the mutated proposal stored, and the
reserved balance shifted by the difference of squares. -/
theorem inv_update_commit {cfg : Config} {s : PalletState} {who : AccountId}
    {pid : ProposalId} {nvd : VoteDecision} {cv : Vote} {p p2 : Proposal}
    (hi : Inv cfg s)
    (hp : get_proposal s pid = some p)
    (hcv : alookup s.votes (who, pid) = some cv)
    (hst : p.status = ProposalStatus.InProgress)
    (htas : tallyAddSide (subOldSide p cv.vote_decision) nvd = some p2)
    (hn0 : decisionAmount nvd ≠ 0)
    (hnlim : decisionAmount nvd ≤ cfg.voteLimit)
    (hnle : decisionAmount nvd * decisionAmount nvd ≤ u32Max)
    (s' : PalletState)
    (hsv : s'.votes = ainsert s.votes (who, pid) ⟨nvd, true⟩)
    (hsp : s'.proposals = ainsert s.proposals pid p2)
    (hsr : s'.registeredVoters = s.registeredVoters)
    (hsa : s'.amountVoters = s.amountVoters)
    (hsc : s'.proposalCounter = s.proposalCounter)
    (hresw : getBal s'.reservedBal who +
      decisionAmount cv.vote_decision * decisionAmount cv.vote_decision =
      getBal s.reservedBal who + decisionAmount nvd * decisionAmount nvd)
    (hreso : ∀ a, a ≠ who → getBal s'.reservedBal a = getBal s.reservedBal a) :
    Inv cfg s' := by
  have hmem : ((who, pid), cv) ∈ s.votes := alookup_mem hcv
  have hlock : cv.locked = true := hi.voteLocked _ hmem p hp hst
  obtain ⟨hsid, hspr, hstx, hstp, hsst⟩ := subOldSide_fields p cv.vote_decision
  obtain ⟨hid2, hpr2, htx2, htp2, hss2⟩ := tallyAddSide_some_fields htas
  refine ⟨?_, ?_, ?_, ?_, ?_, ?_, ?_, ?_, ?_, ?_, ?_, ?_⟩
  · rw [hsv]
    exact nodupKeys_ainsert hi.ndVotes _ _
  · rw [hsp]
    exact nodupKeys_ainsert hi.ndProposals _ _
  · intro e he
    rw [hsv] at he
    rcases List.mem_cons.mp he with h1 | h1
    · subst h1
      exact ⟨Nat.pos_of_ne_zero hn0, hnlim, hnle⟩
    · exact hi.voteMag e (mem_aerase.mp h1).1
  · intro e he
    rw [hsv] at he
    rw [hsr]
    rcases List.mem_cons.mp he with h1 | h1
    · subst h1
      exact hi.voteReg ((who, pid), cv) hmem
    · exact hi.voteReg e (mem_aerase.mp h1).1
  · intro e he
    rw [hsv] at he
    rw [hsp]
    rcases List.mem_cons.mp he with h1 | h1
    · subst h1
      show (alookup (ainsert s.proposals pid p2) pid).isSome
      rw [alookup_ainsert_self]
      rfl
    · exact isSome_alookup_ainsert _ _ _ _ (hi.votePid e (mem_aerase.mp h1).1)
  · intro e he q hq hstq
    rw [hsv] at he
    rw [hsp] at hq
    rcases List.mem_cons.mp he with h1 | h1
    · subst h1
      rfl
    · obtain ⟨hmem2, hne⟩ := mem_aerase.mp h1
      by_cases he2 : e.1.2 = pid
      · rw [he2, alookup_ainsert_self] at hq
        injection hq with hq2
        subst hq2
        exact hi.voteLocked e hmem2 p (he2 ▸ hp) hst
      · rw [alookup_ainsert_ne he2] at hq
        exact hi.voteLocked e hmem2 q hq hstq
  · intro a
    rw [hsv, lockedSum_ainsert]
    have hsplit := lockedSum_aerase_some hi.ndVotes hcv a
    by_cases ha : a = who
    · subst ha
      rw [if_pos ⟨rfl, hlock⟩] at hsplit
      rw [if_pos ⟨rfl, rfl⟩]
      have e2 := hi.reservedEq a
      dsimp only
      omega
    · rw [if_neg (fun hc => ha hc.1.symm)] at hsplit
      rw [if_neg (fun hc => ha hc.1.symm)]
      have e2 := hi.reservedEq a
      have e3 := hreso a ha
      omega
  · intro q r hq
    rw [hsp] at hq
    rw [hsv]
    by_cases hq2 : q = pid
    · subst hq2
      rw [alookup_ainsert_self] at hq
      injection hq with hq3
      subst hq3
      obtain ⟨hpa, hpn⟩ := hi.tallyEq q p hp
      have hsplitT := sideSum_aerase_some hi.ndVotes hcv q true
      have hsplitF := sideSum_aerase_some hi.ndVotes hcv q false
      rw [sideSum_ainsert, sideSum_ainsert]
      cases hcvd : cv.vote_decision with
      | Aye c =>
        rw [hcvd] at htas hsplitT hsplitF
        rw [if_pos ⟨rfl, rfl⟩] at hsplitT
        rw [if_neg (fun hc => Bool.noConfusion hc.2)] at hsplitF
        cases nvd with
        | Aye n =>
          obtain ⟨ha1, ha2, ha3⟩ := tallyAddSide_aye htas
          rw [if_pos ⟨rfl, rfl⟩, if_neg (fun hc => Bool.noConfusion hc.2)]
          rw [subOldSide_aye] at ha1 ha2
          simp only [decisionAmount] at ha1 ha2 hsplitT hsplitF ⊢
          omega
        | Nay n =>
          obtain ⟨ha1, ha2, ha3⟩ := tallyAddSide_nay htas
          rw [if_neg (fun hc => Bool.noConfusion hc.2), if_pos ⟨rfl, rfl⟩]
          rw [subOldSide_aye] at ha1 ha2
          simp only [decisionAmount] at ha1 ha2 hsplitT hsplitF ⊢
          omega
      | Nay c =>
        rw [hcvd] at htas hsplitT hsplitF
        rw [if_neg (fun hc => Bool.noConfusion hc.2)] at hsplitT
        rw [if_pos ⟨rfl, rfl⟩] at hsplitF
        cases nvd with
        | Aye n =>
          obtain ⟨ha1, ha2, ha3⟩ := tallyAddSide_aye htas
          rw [if_pos ⟨rfl, rfl⟩, if_neg (fun hc => Bool.noConfusion hc.2)]
          rw [subOldSide_nay] at ha1 ha2
          simp only [decisionAmount] at ha1 ha2 hsplitT hsplitF ⊢
          omega
        | Nay n =>
          obtain ⟨ha1, ha2, ha3⟩ := tallyAddSide_nay htas
          rw [if_neg (fun hc => Bool.noConfusion hc.2), if_pos ⟨rfl, rfl⟩]
          rw [subOldSide_nay] at ha1 ha2
          simp only [decisionAmount] at ha1 ha2 hsplitT hsplitF ⊢
          omega
    · rw [alookup_ainsert_ne hq2] at hq
      obtain ⟨hpa, hpn⟩ := hi.tallyEq q r hq
      have hsplitT := sideSum_aerase_some hi.ndVotes hcv q true
      have hsplitF := sideSum_aerase_some hi.ndVotes hcv q false
      rw [if_neg (fun hc => hq2 hc.1.symm)] at hsplitT
      rw [if_neg (fun hc => hq2 hc.1.symm)] at hsplitF
      rw [sideSum_ainsert, sideSum_ainsert]
      rw [if_neg (fun hc => hq2 hc.1.symm), if_neg (fun hc => hq2 hc.1.symm)]
      omega
  · intro q r hq
    rw [hsp] at hq
    rw [hsr]
    by_cases hq2 : q = pid
    · subst hq2
      rw [alookup_ainsert_self] at hq
      injection hq with hq3
      subst hq3
      rw [hpr2, hspr]
      exact hi.proposerReg q p hp
    · rw [alookup_ainsert_ne hq2] at hq
      exact hi.proposerReg q r hq
  · intro q r hq
    rw [hsp] at hq
    rw [hsc]
    by_cases hq2 : q = pid
    · subst hq2
      exact hi.pidLe q p hp
    · rw [alookup_ainsert_ne hq2] at hq
      exact hi.pidLe q r hq
  · rw [hsa, hsr]
    exact hi.amountEq
  · rw [hsr]
    exact hi.lenBound

theorem inv_update {cfg : Config} {now : BlockNumber} {who : AccountId}
    {pid : ProposalId} {nvd : VoteDecision} {s s' : PalletState} (hi : Inv cfg s)
    (h : update_vote cfg now who pid nvd s = Outcome.ok s') : Inv cfg s' := by
  obtain ⟨hreg, p, cv, p2, hp, htime, hst, hcv, htas, hthr, htail⟩ := update_vote_ok h
  obtain ⟨hn0, hnlim, hcle, hnle, hbranch⟩ := update_vote_tail_ok htail
  have hmem : ((who, pid), cv) ∈ s.votes := alookup_mem hcv
  have hlock : cv.locked = true := hi.voteLocked _ hmem p hp hst
  have hres_ge : decisionAmount cv.vote_decision * decisionAmount cv.vote_decision ≤
      getBal s.reservedBal who := by
    have hsplit := lockedSum_aerase_some hi.ndVotes hcv who
    rw [if_pos ⟨rfl, hlock⟩] at hsplit
    have e2 := hi.reservedEq who
    omega
  rcases hbranch with ⟨hlt, s1, hres, hs'⟩ | ⟨hlt, hs'⟩ | ⟨heq, hs'⟩
  · obtain ⟨hbal, hs1⟩ := reserveBal_some hres
    subst hs1
    subst hs'
    refine inv_update_commit hi hp hcv hst htas hn0 hnlim hnle _ rfl rfl rfl rfl rfl ?_ ?_
    · show getBal (ainsert s.reservedBal who _) who + _ = _
      rw [getBal_ainsert_self]
      have : decisionAmount cv.vote_decision * decisionAmount cv.vote_decision ≤
          decisionAmount nvd * decisionAmount nvd :=
        Nat.mul_le_mul (Nat.le_of_lt hlt) (Nat.le_of_lt hlt)
      omega
    · intro a ha
      show getBal (ainsert s.reservedBal who _) a = _
      rw [getBal_ainsert_ne ha]
  · subst hs'
    refine inv_update_commit hi hp hcv hst htas hn0 hnlim hnle _ rfl rfl rfl rfl rfl ?_ ?_
    · show getBal (ainsert s.reservedBal who (getBal s.reservedBal who - _)) who + _ = _
      rw [getBal_ainsert_self]
      have : decisionAmount nvd * decisionAmount nvd ≤
          decisionAmount cv.vote_decision * decisionAmount cv.vote_decision :=
        Nat.mul_le_mul (Nat.le_of_lt hlt) (Nat.le_of_lt hlt)
      omega
    · intro a ha
      show getBal (ainsert s.reservedBal who _) a = _
      rw [getBal_ainsert_ne ha]
  · subst hs'
    refine inv_update_commit hi hp hcv hst htas hn0 hnlim hnle _ rfl rfl rfl rfl rfl ?_ ?_
    · rw [heq]
    · intro a ha
      rfl

theorem inv_cancel_vote {cfg : Config} {now : BlockNumber} {who : AccountId}
    {pid : ProposalId} {s s' : PalletState} (hi : Inv cfg s)
    (h : cancel_vote cfg now who pid s = Outcome.ok s') : Inv cfg s' := by
  obtain ⟨p, cv, hp, hcv, htime, hst, hthr, hle, hs'⟩ := cancel_vote_ok h
  subst hs'
  have hmem : ((who, pid), cv) ∈ s.votes := alookup_mem hcv
  have hlock : cv.locked = true := hi.voteLocked _ hmem p hp hst
  obtain ⟨hsid, hspr, hstx, hstp, hsst⟩ := subOldSide_fields p cv.vote_decision
  refine ⟨?_, ?_, ?_, ?_, ?_, ?_, ?_, ?_, ?_, ?_, hi.amountEq, hi.lenBound⟩
  · show NodupKeys (aerase s.votes (who, pid))
    exact nodupKeys_aerase hi.ndVotes _
  · show NodupKeys (ainsert s.proposals pid (subOldSide p cv.vote_decision))
    exact nodupKeys_ainsert hi.ndProposals _ _
  · exact fun e he => hi.voteMag e (mem_aerase.mp he).1
  · exact fun e he => hi.voteReg e (mem_aerase.mp he).1
  · intro e he
    exact isSome_alookup_ainsert _ _ _ _ (hi.votePid e (mem_aerase.mp he).1)
  · intro e he q hq hstq
    obtain ⟨hmem2, hne⟩ := mem_aerase.mp he
    replace hq : alookup (ainsert s.proposals pid (subOldSide p cv.vote_decision))
      e.1.2 = some q := hq
    by_cases he2 : e.1.2 = pid
    · rw [he2, alookup_ainsert_self] at hq
      injection hq with hq2
      subst hq2
      exact hi.voteLocked e hmem2 p (he2 ▸ hp) hst
    · rw [alookup_ainsert_ne he2] at hq
      exact hi.voteLocked e hmem2 q hq hstq
  · intro a
    have hsplit := lockedSum_aerase_some hi.ndVotes hcv a
    have e2 := hi.reservedEq a
    by_cases ha : a = who
    · subst ha
      rw [if_pos ⟨rfl, hlock⟩] at hsplit
      show getBal (ainsert s.reservedBal a (getBal s.reservedBal a -
        decisionAmount cv.vote_decision * decisionAmount cv.vote_decision)) a =
        lockedSum (aerase s.votes (a, pid)) a
      rw [getBal_ainsert_self]
      omega
    · rw [if_neg (fun hc => ha hc.1.symm)] at hsplit
      show getBal (ainsert s.reservedBal who (getBal s.reservedBal who -
        decisionAmount cv.vote_decision * decisionAmount cv.vote_decision)) a =
        lockedSum (aerase s.votes (who, pid)) a
      rw [getBal_ainsert_ne ha]
      omega
  · intro q r hq
    replace hq : alookup (ainsert s.proposals pid (subOldSide p cv.vote_decision))
      q = some r := hq
    have hsplitT := sideSum_aerase_some hi.ndVotes hcv q true
    have hsplitF := sideSum_aerase_some hi.ndVotes hcv q false
    by_cases hq2 : q = pid
    · subst hq2
      rw [alookup_ainsert_self] at hq
      injection hq with hq3
      subst hq3
      obtain ⟨hpa, hpn⟩ := hi.tallyEq q p hp
      cases hcvd : cv.vote_decision with
      | Aye c =>
        rw [hcvd] at hsplitT hsplitF
        rw [if_pos ⟨rfl, rfl⟩] at hsplitT
        rw [if_neg (fun hc => Bool.noConfusion hc.2)] at hsplitF
        rw [subOldSide_aye]
        simp only [decisionAmount] at hsplitT hsplitF
        refine ⟨?_, ?_⟩
        · show p.ayes - c = sideSum (aerase s.votes (who, q)) q true
          omega
        · show p.nays = sideSum (aerase s.votes (who, q)) q false
          omega
      | Nay c =>
        rw [hcvd] at hsplitT hsplitF
        rw [if_neg (fun hc => Bool.noConfusion hc.2)] at hsplitT
        rw [if_pos ⟨rfl, rfl⟩] at hsplitF
        rw [subOldSide_nay]
        simp only [decisionAmount] at hsplitT hsplitF
        refine ⟨?_, ?_⟩
        · show p.ayes = sideSum (aerase s.votes (who, q)) q true
          omega
        · show p.nays - c = sideSum (aerase s.votes (who, q)) q false
          omega
    · rw [alookup_ainsert_ne hq2] at hq
      obtain ⟨hpa, hpn⟩ := hi.tallyEq q r hq
      rw [if_neg (fun hc => hq2 hc.1.symm)] at hsplitT
      rw [if_neg (fun hc => hq2 hc.1.symm)] at hsplitF
      refine ⟨?_, ?_⟩
      · show r.ayes = sideSum (aerase s.votes (who, pid)) q true
        omega
      · show r.nays = sideSum (aerase s.votes (who, pid)) q false
        omega
  · intro q r hq
    replace hq : alookup (ainsert s.proposals pid (subOldSide p cv.vote_decision))
      q = some r := hq
    by_cases hq2 : q = pid
    · subst hq2
      rw [alookup_ainsert_self] at hq
      injection hq with hq3
      subst hq3
      show (alookup s.registeredVoters (subOldSide p cv.vote_decision).proposer).isSome
      rw [hspr]
      exact hi.proposerReg q p hp
    · rw [alookup_ainsert_ne hq2] at hq
      exact hi.proposerReg q r hq
  · intro q r hq
    replace hq : alookup (ainsert s.proposals pid (subOldSide p cv.vote_decision))
      q = some r := hq
    show q ≤ s.proposalCounter.getD 0
    by_cases hq2 : q = pid
    · subst hq2
      exact hi.pidLe q p hp
    · rw [alookup_ainsert_ne hq2] at hq
      exact hi.pidLe q r hq

theorem inv_unlock {cfg : Config} {who : AccountId} {pid : ProposalId}
    {s s' : PalletState} (hi : Inv cfg s)
    (h : unlock_balance cfg who pid s = Outcome.ok s') : Inv cfg s' := by
  obtain ⟨p, cv, hp, hst, hcv, hlock, hle, hs'⟩ := unlock_balance_ok h
  subst hs'
  have hmem : ((who, pid), cv) ∈ s.votes := alookup_mem hcv
  refine ⟨?_, hi.ndProposals, ?_, ?_, ?_, ?_, ?_, ?_, hi.proposerReg, hi.pidLe,
    hi.amountEq, hi.lenBound⟩
  · show NodupKeys (ainsert s.votes (who, pid) ⟨cv.vote_decision, false⟩)
    exact nodupKeys_ainsert hi.ndVotes _ _
  · intro e he
    replace he : e ∈ ainsert s.votes (who, pid) ⟨cv.vote_decision, false⟩ := he
    rcases List.mem_cons.mp he with h1 | h1
    · subst h1
      exact hi.voteMag ((who, pid), cv) hmem
    · exact hi.voteMag e (mem_aerase.mp h1).1
  · intro e he
    replace he : e ∈ ainsert s.votes (who, pid) ⟨cv.vote_decision, false⟩ := he
    rcases List.mem_cons.mp he with h1 | h1
    · subst h1
      exact hi.voteReg ((who, pid), cv) hmem
    · exact hi.voteReg e (mem_aerase.mp h1).1
  · intro e he
    replace he : e ∈ ainsert s.votes (who, pid) ⟨cv.vote_decision, false⟩ := he
    rcases List.mem_cons.mp he with h1 | h1
    · subst h1
      exact hi.votePid ((who, pid), cv) hmem
    · exact hi.votePid e (mem_aerase.mp h1).1
  · intro e he q hq hstq
    replace he : e ∈ ainsert s.votes (who, pid) ⟨cv.vote_decision, false⟩ := he
    rcases List.mem_cons.mp he with h1 | h1
    · subst h1
      replace hq : alookup s.proposals pid = some q := hq
      have hpq : some p = some q := hp.symm.trans hq
      injection hpq with hpq2
      subst hpq2
      exact absurd hstq hst
    · obtain ⟨hmem2, hne⟩ := mem_aerase.mp h1
      exact hi.voteLocked e hmem2 q hq hstq
  · intro a
    have hsplit := lockedSum_aerase_some hi.ndVotes hcv a
    have e2 := hi.reservedEq a
    by_cases ha : a = who
    · subst ha
      rw [if_pos ⟨rfl, hlock⟩] at hsplit
      show getBal (ainsert s.reservedBal a (getBal s.reservedBal a -
        decisionAmount cv.vote_decision * decisionAmount cv.vote_decision)) a =
        lockedSum (ainsert s.votes (a, pid) ⟨cv.vote_decision, false⟩) a
      rw [getBal_ainsert_self, lockedSum_ainsert]
      rw [if_neg (fun hc => Bool.noConfusion hc.2)]
      omega
    · rw [if_neg (fun hc => ha hc.1.symm)] at hsplit
      show getBal (ainsert s.reservedBal who (getBal s.reservedBal who -
        decisionAmount cv.vote_decision * decisionAmount cv.vote_decision)) a =
        lockedSum (ainsert s.votes (who, pid) ⟨cv.vote_decision, false⟩) a
      rw [getBal_ainsert_ne ha, lockedSum_ainsert]
      rw [if_neg (fun hc => ha hc.1.symm)]
      omega
  · intro q r hq
    replace hq : alookup s.proposals q = some r := hq
    obtain ⟨hpa, hpn⟩ := hi.tallyEq q r hq
    have hsplitT := sideSum_aerase_some hi.ndVotes hcv q true
    have hsplitF := sideSum_aerase_some hi.ndVotes hcv q false
    refine ⟨?_, ?_⟩
    · show r.ayes = sideSum (ainsert s.votes (who, pid) ⟨cv.vote_decision, false⟩) q true
      rw [sideSum_ainsert]
      dsimp only
      omega
    · show r.nays = sideSum (ainsert s.votes (who, pid) ⟨cv.vote_decision, false⟩) q false
      rw [sideSum_ainsert]
      dsimp only
      omega


theorem inv_init (cfg : Config) (free0 : List (AccountId × Nat)) :
    Inv cfg (initState free0) := by
  refine ⟨List.nodup_nil, List.nodup_nil, ?_, ?_, ?_, ?_, ?_, ?_, ?_, ?_, ?_, ?_⟩
  · exact fun e he => absurd he (List.not_mem_nil e)
  · exact fun e he => absurd he (List.not_mem_nil e)
  · exact fun e he => absurd he (List.not_mem_nil e)
  · exact fun e he => absurd he (List.not_mem_nil e)
  · intro a
    rfl
  · intro pid p hp
    exact Option.noConfusion hp
  · intro pid p hp
    exact Option.noConfusion hp
  · intro pid p hp
    exact Option.noConfusion hp
  · show (0 : Nat) = min 0 u32Max
    simp
  · intro hm
    exact Nat.zero_le _

theorem inv_step {cfg : Config} {now : BlockNumber} {op : Op} {s s' : PalletState}
    (hi : Inv cfg s) (h : applyOp cfg now op s = Outcome.ok s') : Inv cfg s' := by
  cases op with
  | registerVoter r w => exact inv_register hi h
  | makeProposal w d tp => exact inv_make hi h
  | increaseProposalTime w pid tp => exact inv_increase hi h
  | cancelProposal w pid => exact inv_cancel_proposal hi h
  | voteOp w pid vd => exact inv_vote hi h
  | updateVoteOp w pid vd => exact inv_update hi h
  | cancelVoteOp w pid => exact inv_cancel_vote hi h
  | finishProposal w pid => exact inv_finish hi h
  | unlockBalance w pid => exact inv_unlock hi h

/-- The master invariant holds in every reachable state. -/
theorem reachable_inv {cfg : Config} {s : PalletState} (h : Reachable cfg s) :
    Inv cfg s := by
  induction h with
  | init free0 => exact inv_init cfg free0
  | step now op hr hok ih => exact inv_step ih hok

theorem reachable_of_reachableFrom {cfg : Config} {s s' : PalletState}
    (h : Reachable cfg s) (h2 : ReachableFrom cfg s s') : Reachable cfg s' := by
  induction h2 with
  | refl => exact h
  | step now op hrf hok ih => exact Reachable.step now op ih hok

/-! ### Reachability of the example states -/

theorem reachW1 : Reachable cfgW sW1 :=
  Reachable.step 0 (Op.registerVoter true 1) (Reachable.init [(1, 25), (2, 25)])
    (by decide)

theorem reachW2 : Reachable cfgW sW2 :=
  Reachable.step 0 (Op.makeProposal 1 7 10) reachW1 (by decide)

theorem reachW3 : Reachable cfgW sW3 :=
  Reachable.step 0 (Op.voteOp 1 1 (VoteDecision.Aye 2)) reachW2 (by decide)

theorem reachW4 : Reachable cfgW sW4 :=
  Reachable.step 11 (Op.finishProposal 1 1) reachW3 (by decide)

theorem reachW5 : Reachable cfgW sW5 :=
  Reachable.step 11 (Op.unlockBalance 1 1) reachW4 (by decide)

theorem reachWc : Reachable cfgW sWc :=
  Reachable.step 5 (Op.cancelProposal 1 1) reachW2 (by decide)

theorem reachX1 : Reachable cfgX sX1 :=
  Reachable.step 0 (Op.registerVoter true 1) (Reachable.init [(1, 25), (2, 25)])
    (by decide)

theorem reachX2 : Reachable cfgX sX2 :=
  Reachable.step 0 (Op.registerVoter true 2) reachX1 (by decide)

theorem reachX3 : Reachable cfgX sX3 :=
  Reachable.step 0 (Op.makeProposal 1 7 10) reachX2 (by decide)

theorem reachX4 : Reachable cfgX sX4 :=
  Reachable.step 0 (Op.voteOp 1 1 (VoteDecision.Aye 1)) reachX3 (by decide)

theorem reachX5 : Reachable cfgX sX5 :=
  Reachable.step 0 (Op.voteOp 2 1 (VoteDecision.Nay 1)) reachX4 (by decide)

/-! ### Error exits never mutate state (check-before-write discipline) -/

theorem register_voter_err {cfg : Config} {r : Bool} {who : AccountId}
    {s s2 : PalletState} {e : Error}
    (h : register_voter cfg r who s = Outcome.err e s2) : s2 = s := by
  unfold register_voter at h
  split at h
  · injection h with h1 h2
    exact h2.symm
  split at h
  · injection h with h1 h2
    exact h2.symm
  split at h
  · exact Outcome.noConfusion h
  · injection h with h1 h2
    exact h2.symm

theorem make_proposal_err {cfg : Config} {now : BlockNumber} {who : AccountId}
    {d tp : Nat} {s s2 : PalletState} {e : Error}
    (h : make_proposal cfg now who d tp s = Outcome.err e s2) : s2 = s := by
  unfold make_proposal at h
  split at h
  · injection h with h1 h2
    exact h2.symm
  split at h
  · split at h
    · exact Outcome.noConfusion h
    · injection h with h1 h2
      exact h2.symm
  · injection h with h1 h2
    exact h2.symm

theorem increase_proposal_time_err {cfg : Config} {now : BlockNumber}
    {who : AccountId} {pid : ProposalId} {ntp : BlockNumber} {s s2 : PalletState}
    {e : Error} (h : increase_proposal_time cfg now who pid ntp s = Outcome.err e s2) :
    s2 = s := by
  unfold increase_proposal_time at h
  split at h
  · injection h with h1 h2
    exact h2.symm
  split at h
  · injection h with h1 h2
    exact h2.symm
  split at h
  · injection h with h1 h2
    exact h2.symm
  split at h
  · split at h
    · exact Outcome.noConfusion h
    · injection h with h1 h2
      exact h2.symm
  · injection h with h1 h2
    exact h2.symm

theorem cancel_proposal_err {cfg : Config} {now : BlockNumber} {who : AccountId}
    {pid : ProposalId} {s s2 : PalletState} {e : Error}
    (h : cancel_proposal cfg now who pid s = Outcome.err e s2) : s2 = s := by
  unfold cancel_proposal at h
  split at h
  · injection h with h1 h2
    exact h2.symm
  split at h
  · injection h with h1 h2
    exact h2.symm
  split at h
  · split at h
    · exact Outcome.noConfusion h
    · injection h with h1 h2
      exact h2.symm
  · injection h with h1 h2
    exact h2.symm

theorem finish_proposal_err {cfg : Config} {now : BlockNumber} {who : AccountId}
    {pid : ProposalId} {s s2 : PalletState} {e : Error}
    (h : finish_proposal cfg now who pid s = Outcome.err e s2) : s2 = s := by
  unfold finish_proposal at h
  split at h
  · injection h with h1 h2
    exact h2.symm
  split at h
  · injection h with h1 h2
    exact h2.symm
  split at h
  · exact Outcome.noConfusion h
  · injection h with h1 h2
    exact h2.symm

theorem vote_err {cfg : Config} {now : BlockNumber} {who : AccountId}
    {pid : ProposalId} {vd : VoteDecision} {s s2 : PalletState} {e : Error}
    (h : vote cfg now who pid vd s = Outcome.err e s2) : s2 = s := by
  unfold vote at h
  split at h
  · injection h with h1 h2
    exact h2.symm
  split at h
  · injection h with h1 h2
    exact h2.symm
  split at h
  · split at h
    · injection h with h1 h2
      exact h2.symm
    split at h
    · split at h
      · split at h
        · injection h with h1 h2
          exact h2.symm
        · split at h
          · injection h with h1 h2
            exact h2.symm
          · split at h
            · exact Outcome.noConfusion h
            · exact Outcome.noConfusion h
      · injection h with h1 h2
        exact h2.symm
    · injection h with h1 h2
      exact h2.symm
  · injection h with h1 h2
    exact h2.symm

theorem update_vote_tail_err {cfg : Config} {who : AccountId} {pid : ProposalId}
    {nvd : VoteDecision} {s : PalletState} {p2 : Proposal} {ca na : Nat}
    {s2 : PalletState} {e : Error}
    (h : update_vote_tail cfg who pid nvd s p2 ca na = Outcome.err e s2) : s2 = s := by
  unfold update_vote_tail at h
  split at h
  · injection h with h1 h2
    exact h2.symm
  split at h
  · split at h
    · injection h with h1 h2
      exact h2.symm
    split at h
    · injection h with h1 h2
      exact h2.symm
    split at h
    · split at h
      · split at h
        · injection h with h1 h2
          exact h2.symm
        · exact Outcome.noConfusion h
      · exact Outcome.noConfusion h
    · split at h
      · split at h
        · exact Outcome.noConfusion h
        · exact Outcome.noConfusion h
      · exact Outcome.noConfusion h
  · injection h with h1 h2
    exact h2.symm

theorem update_vote_err {cfg : Config} {now : BlockNumber} {who : AccountId}
    {pid : ProposalId} {nvd : VoteDecision} {s s2 : PalletState} {e : Error}
    (h : update_vote cfg now who pid nvd s = Outcome.err e s2) : s2 = s := by
  unfold update_vote at h
  split at h
  · injection h with h1 h2
    exact h2.symm
  split at h
  · injection h with h1 h2
    exact h2.symm
  split at h
  · split at h
    · injection h with h1 h2
      exact h2.symm
    split at h
    · exact Outcome.noConfusion h
    split at h
    · split at h
      · exact Outcome.noConfusion h
      · injection h with h1 h2
        exact h2.symm
      · exact update_vote_tail_err h
    · exact update_vote_tail_err h
  · injection h with h1 h2
    exact h2.symm

theorem cancel_vote_err {cfg : Config} {now : BlockNumber} {who : AccountId}
    {pid : ProposalId} {s s2 : PalletState} {e : Error}
    (hmag : ∀ e2 ∈ s.votes, decisionAmount e2.2.vote_decision *
      decisionAmount e2.2.vote_decision ≤ u32Max)
    (h : cancel_vote cfg now who pid s = Outcome.err e s2) : s2 = s := by
  unfold cancel_vote at h
  split at h
  · injection h with h1 h2
    exact h2.symm
  rename_i x p hp
  split at h
  · injection h with h1 h2
    exact h2.symm
  rename_i y cv hcv
  split at h
  · split at h
    · exact Outcome.noConfusion h
    · injection h with h1 h2
      exact h2.symm
    · rename_i z hb
      split at h
      · rename_i hpow
        have := hmag ((who, pid), cv) (alookup_mem hcv)
        rw [checked_pow2_of_le this] at hpow
        exact Option.noConfusion hpow
      · exact Outcome.noConfusion h
  · injection h with h1 h2
    exact h2.symm

theorem unlock_balance_err {cfg : Config} {who : AccountId} {pid : ProposalId}
    {s s2 : PalletState} {e : Error}
    (hmag : ∀ e2 ∈ s.votes, decisionAmount e2.2.vote_decision *
      decisionAmount e2.2.vote_decision ≤ u32Max)
    (h : unlock_balance cfg who pid s = Outcome.err e s2) : s2 = s := by
  unfold unlock_balance at h
  split at h
  · injection h with h1 h2
    exact h2.symm
  rename_i x p hp
  split at h
  · injection h with h1 h2
    exact h2.symm
  split at h
  · injection h with h1 h2
    exact h2.symm
  rename_i y cv hcv
  split at h
  · split at h
    · rename_i hpow
      have := hmag ((who, pid), cv) (alookup_mem hcv)
      rw [checked_pow2_of_le this] at hpow
      exact Option.noConfusion hpow
    · exact Outcome.noConfusion h
  · injection h with h1 h2
    exact h2.symm

/-! ### Trap analysis -/

theorem register_voter_ne_trap (cfg : Config) (r : Bool) (who : AccountId)
    (s : PalletState) : register_voter cfg r who s ≠ Outcome.trap := by
  intro h
  unfold register_voter at h
  split at h
  · exact Outcome.noConfusion h
  split at h
  · exact Outcome.noConfusion h
  split at h
  · exact Outcome.noConfusion h
  · exact Outcome.noConfusion h

theorem make_proposal_ne_trap (cfg : Config) (now : BlockNumber) (who : AccountId)
    (d tp : Nat) (s : PalletState) : make_proposal cfg now who d tp s ≠ Outcome.trap := by
  intro h
  unfold make_proposal at h
  split at h
  · exact Outcome.noConfusion h
  split at h
  · split at h
    · exact Outcome.noConfusion h
    · exact Outcome.noConfusion h
  · exact Outcome.noConfusion h

theorem increase_proposal_time_ne_trap (cfg : Config) (now : BlockNumber)
    (who : AccountId) (pid : ProposalId) (ntp : BlockNumber) (s : PalletState) :
    increase_proposal_time cfg now who pid ntp s ≠ Outcome.trap := by
  intro h
  unfold increase_proposal_time at h
  split at h
  · exact Outcome.noConfusion h
  split at h
  · exact Outcome.noConfusion h
  split at h
  · exact Outcome.noConfusion h
  split at h
  · split at h
    · exact Outcome.noConfusion h
    · exact Outcome.noConfusion h
  · exact Outcome.noConfusion h

theorem cancel_proposal_ne_trap (cfg : Config) (now : BlockNumber) (who : AccountId)
    (pid : ProposalId) (s : PalletState) :
    cancel_proposal cfg now who pid s ≠ Outcome.trap := by
  intro h
  unfold cancel_proposal at h
  split at h
  · exact Outcome.noConfusion h
  split at h
  · exact Outcome.noConfusion h
  split at h
  · split at h
    · exact Outcome.noConfusion h
    · exact Outcome.noConfusion h
  · exact Outcome.noConfusion h

theorem finish_proposal_ne_trap (cfg : Config) (now : BlockNumber) (who : AccountId)
    (pid : ProposalId) (s : PalletState) :
    finish_proposal cfg now who pid s ≠ Outcome.trap := by
  intro h
  unfold finish_proposal at h
  split at h
  · exact Outcome.noConfusion h
  split at h
  · exact Outcome.noConfusion h
  split at h
  · exact Outcome.noConfusion h
  · exact Outcome.noConfusion h

theorem unlock_balance_ne_trap (cfg : Config) (who : AccountId) (pid : ProposalId)
    (s : PalletState) : unlock_balance cfg who pid s ≠ Outcome.trap := by
  intro h
  unfold unlock_balance at h
  split at h
  · exact Outcome.noConfusion h
  split at h
  · exact Outcome.noConfusion h
  split at h
  · exact Outcome.noConfusion h
  split at h
  · split at h
    · exact Outcome.noConfusion h
    · exact Outcome.noConfusion h
  · exact Outcome.noConfusion h

theorem cancel_vote_ne_trap (cfg : Config) (now : BlockNumber) (who : AccountId)
    (pid : ProposalId) (s : PalletState) :
    cancel_vote cfg now who pid s ≠ Outcome.trap := by
  intro h
  unfold cancel_vote at h
  split at h
  · exact Outcome.noConfusion h
  split at h
  · exact Outcome.noConfusion h
  split at h
  · rename_i hcond
    split at h
    · rename_i hb
      unfold passed_removal_threshold at hb
      rw [if_pos hcond.1] at hb
      exact Option.noConfusion hb
    · exact Outcome.noConfusion h
    · split at h
      · exact Outcome.noConfusion h
      · exact Outcome.noConfusion h
  · exact Outcome.noConfusion h

theorem mag_le_65535 {n : Nat} (h : n * n ≤ u32Max) : n ≤ 65535 := by
  by_contra hc
  push_neg at hc
  have h2 : 65536 * 65536 ≤ n * n := Nat.mul_le_mul hc hc
  unfold u32Max at h
  omega

theorem alookup_isSome_mem_keys {K V : Type} [DecidableEq K]
    {l : List (K × V)} {k : K} (h : (alookup l k).isSome) : k ∈ l.map Prod.fst := by
  by_contra hc
  rw [← alookup_eq_none_iff] at hc
  rw [hc] at h
  exact Bool.noConfusion h

/-- In an invariant state, the side sum of any proposal is bounded by the
number of registered voters times the magnitude cap. -/
theorem sideSum_le {cfg : Config} {s : PalletState} (hi : Inv cfg s)
    (pid : ProposalId) (b : Bool) :
    sideSum s.votes pid b ≤ s.registeredVoters.length * magCap cfg := by
  unfold sideSum
  rw [asum_filter _ (fun e => decide (e.1.2 = pid)) ?vanish]
  case vanish =>
    intro e he hfalse
    rw [if_neg]
    intro hc
    exact absurd (decide_eq_true hc.1) (by simp [hfalse])
  have hcount : ((s.votes.filter (fun e => decide (e.1.2 = pid))).length) ≤
      s.registeredVoters.length := by
    have hsub : ((s.votes.filter (fun e => decide (e.1.2 = pid))).map Prod.fst).Sublist
        (s.votes.map Prod.fst) := (List.filter_sublist _).map _
    have hnd : ((s.votes.filter (fun e => decide (e.1.2 = pid))).map Prod.fst).Nodup :=
      hsub.nodup hi.ndVotes
    have hnd2 : (((s.votes.filter (fun e => decide (e.1.2 = pid))).map Prod.fst).map
        Prod.fst).Nodup := by
      refine List.Nodup.map_on ?_ hnd
      intro x hx y hy hxy
      obtain ⟨ex, hex, hex2⟩ := List.mem_map.mp hx
      obtain ⟨ey, hey, hey2⟩ := List.mem_map.mp hy
      have hx2 : x.2 = pid := by
        have := List.of_mem_filter hex
        rw [hex2] at this
        exact of_decide_eq_true this
      have hy2 : y.2 = pid := by
        have := List.of_mem_filter hey
        rw [hey2] at this
        exact of_decide_eq_true this
      exact Prod.ext hxy (hx2.trans hy2.symm)
    have hsubset : (((s.votes.filter (fun e => decide (e.1.2 = pid))).map Prod.fst).map
        Prod.fst) ⊆ s.registeredVoters.map Prod.fst := by
      intro a ha
      obtain ⟨x, hx, hx2⟩ := List.mem_map.mp ha
      obtain ⟨ex, hex, hex2⟩ := List.mem_map.mp hx
      have hmem : ex ∈ s.votes := List.mem_of_mem_filter hex
      have := hi.voteReg ex hmem
      rw [hex2, hx2] at this
      exact alookup_isSome_mem_keys this
    have := (hnd2.subperm hsubset).length_le
    simpa using this
  refine le_trans (asum_le_length_mul ?_) (Nat.mul_le_mul_right _ hcount)
  intro e he
  have hmem : e ∈ s.votes := List.mem_of_mem_filter he
  obtain ⟨h1, h2, h3⟩ := hi.voteMag e hmem
  have h4 := mag_le_65535 h3
  split
  · exact Nat.le_min.mpr ⟨h2, h4⟩
  · exact Nat.zero_le _

theorem tallyAddSide_none_aye {p : Proposal} {v : Nat}
    (h : tallyAddSide p (VoteDecision.Aye v) = none) : u32Max < p.ayes + v := by
  simp only [tallyAddSide] at h
  split at h
  · exact Option.noConfusion h
  · rename_i hc
    omega

theorem tallyAddSide_none_nay {p : Proposal} {v : Nat}
    (h : tallyAddSide p (VoteDecision.Nay v) = none) : u32Max < p.nays + v := by
  simp only [tallyAddSide] at h
  split at h
  · exact Option.noConfusion h
  · rename_i hc
    omega

theorem subOldSide_ayes_le (p : Proposal) (d : VoteDecision) :
    (subOldSide p d).ayes ≤ p.ayes := by
  cases d with
  | Aye v => exact Nat.sub_le _ _
  | Nay v => exact Nat.le_refl _

theorem subOldSide_nays_le (p : Proposal) (d : VoteDecision) :
    (subOldSide p d).nays ≤ p.nays := by
  cases d with
  | Aye v => exact Nat.le_refl _
  | Nay v => exact Nat.sub_le _ _

theorem vote_ne_trap {cfg : Config} {now : BlockNumber} {who : AccountId}
    {pid : ProposalId} {vd : VoteDecision} {s : PalletState} (hi : Inv cfg s)
    (hcfg : (cfg.maxVoters + 1) * magCap cfg ≤ u32Max) :
    vote cfg now who pid vd s ≠ Outcome.trap := by
  intro h
  unfold vote at h
  split at h
  · exact Outcome.noConfusion h
  split at h
  · exact Outcome.noConfusion h
  rename_i hreg x p hp
  split at h
  · rename_i hcond
    split at h
    · exact Outcome.noConfusion h
    rename_i hcast
    split at h
    · rename_i hpos
      split at h
      · rename_i hlim
        split at h
        · exact Outcome.noConfusion h
        rename_i y amt hpow
        split at h
        · exact Outcome.noConfusion h
        rename_i z s1 hres
        split at h
        · rename_i htas
          obtain ⟨ham, hle⟩ := checked_pow2_some hpow
          have h65 := mag_le_65535 hle
          have hmagcap : decisionAmount vd ≤ magCap cfg := Nat.le_min.mpr ⟨hlim, h65⟩
          have hcap1 : 1 ≤ magCap cfg := le_trans hpos hmagcap
          have hmaxv : cfg.maxVoters ≤ u32Max := by
            have h1 : cfg.maxVoters + 1 ≤ (cfg.maxVoters + 1) * magCap cfg :=
              Nat.le_mul_of_pos_right _ hcap1
            omega
          have hlen := hi.lenBound hmaxv
          have hmul : (cfg.maxVoters + 1) * magCap cfg =
              cfg.maxVoters * magCap cfg + magCap cfg := Nat.succ_mul _ _
          have hlenmul : s.registeredVoters.length * magCap cfg ≤
              cfg.maxVoters * magCap cfg := Nat.mul_le_mul_right _ hlen
          obtain ⟨hpa, hpn⟩ := hi.tallyEq pid p hp
          cases vd with
          | Aye v =>
            have hb := tallyAddSide_none_aye htas
            have hs := sideSum_le hi pid true
            simp only [decisionAmount] at hmagcap
            omega
          | Nay v =>
            have hb := tallyAddSide_none_nay htas
            have hs := sideSum_le hi pid false
            simp only [decisionAmount] at hmagcap
            omega
        · exact Outcome.noConfusion h
      · exact Outcome.noConfusion h
    · exact Outcome.noConfusion h
  · exact Outcome.noConfusion h

theorem update_vote_tail_ne_trap (cfg : Config) (who : AccountId) (pid : ProposalId)
    (nvd : VoteDecision) (s : PalletState) (p2 : Proposal) (ca na : Nat) :
    update_vote_tail cfg who pid nvd s p2 ca na ≠ Outcome.trap := by
  intro h
  unfold update_vote_tail at h
  split at h
  · exact Outcome.noConfusion h
  split at h
  · split at h
    · exact Outcome.noConfusion h
    split at h
    · exact Outcome.noConfusion h
    rename_i h1 h2 x cp hcp y np hnp
    obtain ⟨e1, l1⟩ := checked_pow2_some hcp
    obtain ⟨e2, l2⟩ := checked_pow2_some hnp
    subst e1
    subst e2
    split at h
    · rename_i h3
      split at h
      · split at h
        · exact Outcome.noConfusion h
        · exact Outcome.noConfusion h
      · rename_i h4
        exact h4 (Nat.mul_le_mul (Nat.le_of_lt h3) (Nat.le_of_lt h3))
    · split at h
      · rename_i h3 h4
        split at h
        · exact Outcome.noConfusion h
        · rename_i h5
          exact h5 (Nat.mul_le_mul (Nat.le_of_lt h4) (Nat.le_of_lt h4))
      · exact Outcome.noConfusion h
  · exact Outcome.noConfusion h

theorem update_vote_ne_trap {cfg : Config} {now : BlockNumber} {who : AccountId}
    {pid : ProposalId} {nvd : VoteDecision} {s : PalletState} (hi : Inv cfg s)
    (hcfg : (cfg.maxVoters + 1) * magCap cfg ≤ u32Max)
    (hn : decisionAmount nvd ≤ magCap cfg) :
    update_vote cfg now who pid nvd s ≠ Outcome.trap := by
  intro h
  unfold update_vote at h
  split at h
  · exact Outcome.noConfusion h
  split at h
  · exact Outcome.noConfusion h
  rename_i hreg x p hp
  split at h
  · rename_i hcond
    split at h
    · exact Outcome.noConfusion h
    rename_i y cv hcv
    split at h
    · rename_i htas
      obtain ⟨hm1, hm2, hm3⟩ := hi.voteMag ((who, pid), cv) (alookup_mem hcv)
      have h65 := mag_le_65535 hm3
      have hmagcap : decisionAmount cv.vote_decision ≤ magCap cfg :=
        Nat.le_min.mpr ⟨hm2, h65⟩
      have hcap1 : 1 ≤ magCap cfg := le_trans hm1 hmagcap
      have hmaxv : cfg.maxVoters ≤ u32Max := by
        have h1 : cfg.maxVoters + 1 ≤ (cfg.maxVoters + 1) * magCap cfg :=
          Nat.le_mul_of_pos_right _ hcap1
        omega
      have hlen := hi.lenBound hmaxv
      have hmul : (cfg.maxVoters + 1) * magCap cfg =
          cfg.maxVoters * magCap cfg + magCap cfg := Nat.succ_mul _ _
      have hlenmul : s.registeredVoters.length * magCap cfg ≤
          cfg.maxVoters * magCap cfg := Nat.mul_le_mul_right _ hlen
      obtain ⟨hpa, hpn⟩ := hi.tallyEq pid p hp
      cases nvd with
      | Aye v =>
        have hb := tallyAddSide_none_aye htas
        have hsub := subOldSide_ayes_le p cv.vote_decision
        have hs := sideSum_le hi pid true
        simp only [decisionAmount] at hn
        omega
      | Nay v =>
        have hb := tallyAddSide_none_nay htas
        have hsub := subOldSide_nays_le p cv.vote_decision
        have hs := sideSum_le hi pid false
        simp only [decisionAmount] at hn
        omega
    rename_i z p2 htas
    split at h
    · rename_i hlt
      split at h
      · rename_i hb
        unfold passed_removal_threshold at hb
        rw [if_pos (Nat.le_of_lt hcond.1)] at hb
        exact Option.noConfusion hb
      · exact Outcome.noConfusion h
      · exact update_vote_tail_ne_trap _ _ _ _ _ _ _ _ h
    · exact update_vote_tail_ne_trap _ _ _ _ _ _ _ _ h
  · exact Outcome.noConfusion h

/-! ### Persistence of terminal proposals and unlocked votes -/

theorem terminal_step {cfg : Config} {now : BlockNumber} {op : Op}
    {s s' : PalletState} (hi : Inv cfg s) {pid : ProposalId} {p : Proposal}
    (hp : alookup s.proposals pid = some p)
    (hst : p.status ≠ ProposalStatus.InProgress)
    (hok : applyOp cfg now op s = Outcome.ok s') :
    ∃ p', alookup s'.proposals pid = some p' ∧
      p'.status ≠ ProposalStatus.InProgress := by
  cases op with
  | registerVoter r w =>
    obtain ⟨_, _, _, hs'⟩ := register_voter_ok hok
    subst hs'
    exact ⟨p, hp, hst⟩
  | makeProposal w d tp =>
    replace hok : make_proposal cfg now w d tp s = Outcome.ok s' := hok
    obtain ⟨_, _, _, hs'⟩ := make_proposal_ok hok
    subst hs'
    have hne : pid ≠ get_proposal_counter s + 1 :=
      Nat.ne_of_lt (Nat.lt_succ_of_le (hi.pidLe pid p hp))
    refine ⟨p, ?_, hst⟩
    show alookup (ainsert s.proposals (get_proposal_counter s + 1)
      (Proposal.new (get_proposal_counter s + 1) w d tp)) pid = some p
    rw [alookup_ainsert_ne hne]
    exact hp
  | increaseProposalTime w pid2 tp =>
    replace hok : increase_proposal_time cfg now w pid2 tp s = Outcome.ok s' := hok
    obtain ⟨_, p0, hp0, _, _, _, hs'⟩ := increase_proposal_time_ok hok
    subst hs'
    by_cases hpp : pid = pid2
    · subst hpp
      have : p0 = p := by
        have := hp0.symm.trans hp
        injection this
      subst this
      refine ⟨{ p0 with time_period := tp }, ?_, hst⟩
      show alookup (ainsert s.proposals pid _) pid = some _
      rw [alookup_ainsert_self]
    · refine ⟨p, ?_, hst⟩
      show alookup (ainsert s.proposals pid2 _) pid = some p
      rw [alookup_ainsert_ne hpp]
      exact hp
  | cancelProposal w pid2 =>
    replace hok : cancel_proposal cfg now w pid2 s = Outcome.ok s' := hok
    obtain ⟨p0, hp0, _, _, _, hs'⟩ := cancel_proposal_ok hok
    subst hs'
    by_cases hpp : pid = pid2
    · subst hpp
      refine ⟨{ p0 with status := ProposalStatus.Canceled }, ?_, ?_⟩
      · show alookup (ainsert s.proposals pid _) pid = some _
        rw [alookup_ainsert_self]
      · exact fun hh => ProposalStatus.noConfusion hh
    · refine ⟨p, ?_, hst⟩
      show alookup (ainsert s.proposals pid2 _) pid = some p
      rw [alookup_ainsert_ne hpp]
      exact hp
  | voteOp w pid2 vd =>
    obtain ⟨_, p0, s1, p2, hp0, _, hstp0, _, _, _, _, hres, htas, hs'⟩ := vote_ok hok
    obtain ⟨_, hs1⟩ := reserveBal_some hres
    subst hs1
    subst hs'
    by_cases hpp : pid = pid2
    · subst hpp
      have : p0 = p := by
        have := hp0.symm.trans hp
        injection this
      subst this
      exact absurd hstp0 hst
    · refine ⟨p, ?_, hst⟩
      show alookup (ainsert s.proposals pid2 p2) pid = some p
      rw [alookup_ainsert_ne hpp]
      exact hp
  | updateVoteOp w pid2 nvd =>
    obtain ⟨_, p0, cv, p2, hp0, _, hstp0, hcv, htas, _, htail⟩ := update_vote_ok hok
    by_cases hpp : pid = pid2
    · subst hpp
      have : p0 = p := by
        have := hp0.symm.trans hp
        injection this
      subst this
      exact absurd hstp0 hst
    · obtain ⟨_, _, _, _, hbr⟩ := update_vote_tail_ok htail
      rcases hbr with ⟨_, s1, hres, hs'⟩ | ⟨_, hs'⟩ | ⟨_, hs'⟩
      · obtain ⟨_, hs1⟩ := reserveBal_some hres
        subst hs1
        subst hs'
        refine ⟨p, ?_, hst⟩
        show alookup (ainsert s.proposals pid2 p2) pid = some p
        rw [alookup_ainsert_ne hpp]
        exact hp
      · subst hs'
        refine ⟨p, ?_, hst⟩
        show alookup (ainsert s.proposals pid2 p2) pid = some p
        rw [alookup_ainsert_ne hpp]
        exact hp
      · subst hs'
        refine ⟨p, ?_, hst⟩
        show alookup (ainsert s.proposals pid2 p2) pid = some p
        rw [alookup_ainsert_ne hpp]
        exact hp
  | cancelVoteOp w pid2 =>
    replace hok : cancel_vote cfg now w pid2 s = Outcome.ok s' := hok
    obtain ⟨p0, cv, hp0, hcv, _, hstp0, _, _, hs'⟩ := cancel_vote_ok hok
    subst hs'
    by_cases hpp : pid = pid2
    · subst hpp
      have : p0 = p := by
        have := hp0.symm.trans hp
        injection this
      subst this
      exact absurd hstp0 hst
    · refine ⟨p, ?_, hst⟩
      show alookup (ainsert s.proposals pid2 _) pid = some p
      rw [alookup_ainsert_ne hpp]
      exact hp
  | finishProposal w pid2 =>
    replace hok : finish_proposal cfg now w pid2 s = Outcome.ok s' := hok
    obtain ⟨_, p0, hp0, _, _, hs'⟩ := finish_proposal_ok hok
    subst hs'
    by_cases hpp : pid = pid2
    · subst hpp
      refine ⟨{ p0 with status := if p0.ayes < p0.nays then ProposalStatus.Rejected
        else if p0.nays < p0.ayes then ProposalStatus.Passed
        else ProposalStatus.Tied }, ?_, verdict_ne_inprogress p0.ayes p0.nays⟩
      show alookup (ainsert s.proposals pid ({ p0 with status :=
        if p0.ayes < p0.nays then ProposalStatus.Rejected
        else if p0.nays < p0.ayes then ProposalStatus.Passed
        else ProposalStatus.Tied })) pid = some _
      rw [alookup_ainsert_self]
    · refine ⟨p, ?_, hst⟩
      show alookup (ainsert s.proposals pid2 _) pid = some p
      rw [alookup_ainsert_ne hpp]
      exact hp
  | unlockBalance w pid2 =>
    replace hok : unlock_balance cfg w pid2 s = Outcome.ok s' := hok
    obtain ⟨p0, cv, hp0, _, _, _, _, hs'⟩ := unlock_balance_ok hok
    subst hs'
    exact ⟨p, hp, hst⟩

theorem unlocked_vote_step {cfg : Config} {now : BlockNumber} {op : Op}
    {s s' : PalletState} (hi : Inv cfg s) {who : AccountId} {pid : ProposalId}
    {p : Proposal} {d : VoteDecision}
    (hp : alookup s.proposals pid = some p)
    (hst : p.status ≠ ProposalStatus.InProgress)
    (hv : alookup s.votes (who, pid) = some ⟨d, false⟩)
    (hok : applyOp cfg now op s = Outcome.ok s') :
    alookup s'.votes (who, pid) = some ⟨d, false⟩ := by
  cases op with
  | registerVoter r w =>
    obtain ⟨_, _, _, hs'⟩ := register_voter_ok hok
    subst hs'
    exact hv
  | makeProposal w d2 tp =>
    replace hok : make_proposal cfg now w d2 tp s = Outcome.ok s' := hok
    obtain ⟨_, _, _, hs'⟩ := make_proposal_ok hok
    subst hs'
    exact hv
  | increaseProposalTime w pid2 tp =>
    replace hok : increase_proposal_time cfg now w pid2 tp s = Outcome.ok s' := hok
    obtain ⟨_, p0, hp0, _, _, _, hs'⟩ := increase_proposal_time_ok hok
    subst hs'
    exact hv
  | cancelProposal w pid2 =>
    replace hok : cancel_proposal cfg now w pid2 s = Outcome.ok s' := hok
    obtain ⟨p0, hp0, _, _, _, hs'⟩ := cancel_proposal_ok hok
    subst hs'
    exact hv
  | voteOp w pid2 vd =>
    obtain ⟨_, p0, s1, p2, hp0, _, hstp0, hcast, _, _, _, hres, htas, hs'⟩ := vote_ok hok
    obtain ⟨_, hs1⟩ := reserveBal_some hres
    subst hs1
    subst hs'
    by_cases hkk : (who, pid) = (w, pid2)
    · have hw : who = w := congrArg Prod.fst hkk
      have hpp : pid = pid2 := congrArg Prod.snd hkk
      subst hw
      subst hpp
      rw [vote_casted_false_none hcast] at hv
      exact Option.noConfusion hv
    · show alookup (ainsert s.votes (w, pid2) _) (who, pid) = some _
      rw [alookup_ainsert_ne hkk]
      exact hv
  | updateVoteOp w pid2 nvd =>
    obtain ⟨_, p0, cv, p2, hp0, _, hstp0, hcv, htas, _, htail⟩ := update_vote_ok hok
    by_cases hkk : (who, pid) = (w, pid2)
    · have hpp : pid = pid2 := congrArg Prod.snd hkk
      subst hpp
      have : p0 = p := by
        have := hp0.symm.trans hp
        injection this
      subst this
      exact absurd hstp0 hst
    · obtain ⟨_, _, _, _, hbr⟩ := update_vote_tail_ok htail
      rcases hbr with ⟨_, s1, hres, hs'⟩ | ⟨_, hs'⟩ | ⟨_, hs'⟩
      · obtain ⟨_, hs1⟩ := reserveBal_some hres
        subst hs1
        subst hs'
        show alookup (ainsert s.votes (w, pid2) _) (who, pid) = some _
        rw [alookup_ainsert_ne hkk]
        exact hv
      · subst hs'
        show alookup (ainsert s.votes (w, pid2) _) (who, pid) = some _
        rw [alookup_ainsert_ne hkk]
        exact hv
      · subst hs'
        show alookup (ainsert s.votes (w, pid2) _) (who, pid) = some _
        rw [alookup_ainsert_ne hkk]
        exact hv
  | cancelVoteOp w pid2 =>
    replace hok : cancel_vote cfg now w pid2 s = Outcome.ok s' := hok
    obtain ⟨p0, cv, hp0, hcv, _, hstp0, _, _, hs'⟩ := cancel_vote_ok hok
    subst hs'
    by_cases hkk : (who, pid) = (w, pid2)
    · have hpp : pid = pid2 := congrArg Prod.snd hkk
      subst hpp
      have : p0 = p := by
        have := hp0.symm.trans hp
        injection this
      subst this
      exact absurd hstp0 hst
    · show alookup (aerase s.votes (w, pid2)) (who, pid) = some _
      rw [alookup_aerase_ne hkk]
      exact hv
  | finishProposal w pid2 =>
    replace hok : finish_proposal cfg now w pid2 s = Outcome.ok s' := hok
    obtain ⟨_, p0, hp0, _, _, hs'⟩ := finish_proposal_ok hok
    subst hs'
    exact hv
  | unlockBalance w pid2 =>
    replace hok : unlock_balance cfg w pid2 s = Outcome.ok s' := hok
    obtain ⟨p0, cv, hp0, _, hcv, hlock, _, hs'⟩ := unlock_balance_ok hok
    subst hs'
    by_cases hkk : (who, pid) = (w, pid2)
    · rw [← hkk] at hcv
      have : Vote.mk d false = cv := by
        have := hv.symm.trans hcv
        injection this
      rw [← this] at hlock
      exact Bool.noConfusion hlock
    · show alookup (ainsert s.votes (w, pid2) _) (who, pid) = some _
      rw [alookup_ainsert_ne hkk]
      exact hv

theorem terminal_persists {cfg : Config} {s s' : PalletState}
    (hr : Reachable cfg s) {pid : ProposalId} {p : Proposal}
    (hp : alookup s.proposals pid = some p)
    (hst : p.status ≠ ProposalStatus.InProgress)
    (h2 : ReachableFrom cfg s s') :
    ∃ p', alookup s'.proposals pid = some p' ∧
      p'.status ≠ ProposalStatus.InProgress := by
  induction h2 with
  | refl => exact ⟨p, hp, hst⟩
  | step now op hrf hok ih =>
    obtain ⟨p', hp', hst'⟩ := ih
    exact terminal_step (reachable_inv (reachable_of_reachableFrom hr hrf)) hp' hst' hok

theorem unlocked_vote_persists {cfg : Config} {s s' : PalletState}
    (hr : Reachable cfg s) {who : AccountId} {pid : ProposalId} {p : Proposal}
    {d : VoteDecision}
    (hp : alookup s.proposals pid = some p)
    (hst : p.status ≠ ProposalStatus.InProgress)
    (hv : alookup s.votes (who, pid) = some ⟨d, false⟩)
    (h2 : ReachableFrom cfg s s') :
    alookup s'.votes (who, pid) = some ⟨d, false⟩ := by
  induction h2 with
  | refl => exact hv
  | step now op hrf hok ih =>
    obtain ⟨p', hp', hst'⟩ := terminal_persists hr hp hst hrf
    exact unlocked_vote_step (reachable_inv (reachable_of_reachableFrom hr hrf))
      hp' hst' ih hok

/-! ### Forward evaluation lemmas -/

theorem unlock_err_already {cfg : Config} {who : AccountId} {pid : ProposalId}
    {s : PalletState} {p : Proposal} {d : VoteDecision}
    (hp : alookup s.proposals pid = some p)
    (hst : p.status ≠ ProposalStatus.InProgress)
    (hv : alookup s.votes (who, pid) = some ⟨d, false⟩) :
    unlock_balance cfg who pid s = Outcome.err Error.BalanceAlreadyUnocked s := by
  unfold unlock_balance
  show (match get_proposal s pid with
    | none => Outcome.err Error.ProposalNotFound s
    | some proposal => _) = _
  rw [show get_proposal s pid = some p from hp]
  simp only [hv, if_neg hst]
  simp

theorem increase_ok_eval {cfg : Config} {now : BlockNumber} {who : AccountId}
    {pid : ProposalId} {ntp : BlockNumber} {s : PalletState} {p : Proposal}
    (hreg : is_registered s who = true)
    (hp : alookup s.proposals pid = some p)
    (hwho : p.proposer = who)
    (h1 : p.time_period < ntp) (h2 : now < ntp) :
    increase_proposal_time cfg now who pid ntp s = Outcome.ok
      { s with proposals := ainsert s.proposals pid ({ p with time_period := ntp }) } := by
  unfold increase_proposal_time
  simp only [hreg, show get_proposal s pid = some p from hp, hwho, h1, h2]
  simp

theorem finish_ok_eval {cfg : Config} {now : BlockNumber} {who : AccountId}
    {pid : ProposalId} {s : PalletState} {p : Proposal}
    (hreg : is_registered s who = true)
    (hp : alookup s.proposals pid = some p)
    (hst : p.status = ProposalStatus.InProgress) (h2 : p.time_period < now) :
    finish_proposal cfg now who pid s = Outcome.ok { s with
      proposals := ainsert s.proposals pid ({ p with status :=
        if p.ayes < p.nays then ProposalStatus.Rejected
        else if p.nays < p.ayes then ProposalStatus.Passed
        else ProposalStatus.Tied }) } := by
  unfold finish_proposal
  simp only [hreg, show get_proposal s pid = some p from hp, hst, h2]
  simp

theorem finish_err_ended {cfg : Config} {now : BlockNumber} {who : AccountId}
    {pid : ProposalId} {s : PalletState} {p : Proposal}
    (hreg : is_registered s who = true)
    (hp : alookup s.proposals pid = some p)
    (hst : p.status ≠ ProposalStatus.InProgress) :
    finish_proposal cfg now who pid s = Outcome.err Error.ProposalAlreadyEnded s := by
  unfold finish_proposal
  simp only [hreg, show get_proposal s pid = some p from hp]
  simp [hst]

theorem unlock_ok_eval {cfg : Config} {who : AccountId} {pid : ProposalId}
    {s : PalletState} {p : Proposal} {d : VoteDecision}
    (hp : alookup s.proposals pid = some p)
    (hst : p.status ≠ ProposalStatus.InProgress)
    (hv : alookup s.votes (who, pid) = some ⟨d, true⟩)
    (hle : decisionAmount d * decisionAmount d ≤ u32Max) :
    unlock_balance cfg who pid s = Outcome.ok { s with
      votes := ainsert s.votes (who, pid) ⟨d, false⟩,
      freeBal := ainsert s.freeBal who (getBal s.freeBal who +
        min (decisionAmount d * decisionAmount d) (getBal s.reservedBal who)),
      reservedBal := ainsert s.reservedBal who (getBal s.reservedBal who -
        decisionAmount d * decisionAmount d) } := by
  unfold unlock_balance
  simp only [show get_proposal s pid = some p from hp, if_neg hst, hv,
    checked_pow2_of_le hle]
  simp [unreserveBal]

theorem update_reduction_err {cfg : Config} {now : BlockNumber} {who : AccountId}
    {pid : ProposalId} {s : PalletState} {p : Proposal} {cv : Vote}
    {nvd : VoteDecision} {pR : Proposal}
    (hreg : is_registered s who = true)
    (hp : alookup s.proposals pid = some p)
    (hst : p.status = ProposalStatus.InProgress) (htime : now < p.time_period)
    (hcv : alookup s.votes (who, pid) = some cv)
    (htas : tallyAddSide (subOldSide p cv.vote_decision) nvd = some pR)
    (hlt : decisionAmount nvd < decisionAmount cv.vote_decision)
    (hwin : p.time_period - now < cfg.voteRemovalThreshold) :
    update_vote cfg now who pid nvd s = Outcome.err Error.PassedRemovalThreshold s := by
  unfold update_vote
  rw [hreg, if_neg (by decide : ¬(true = false))]
  rw [show get_proposal s pid = some p from hp]
  dsimp only
  rw [if_pos (show p.time_period > now ∧ p.status = ProposalStatus.InProgress from
    ⟨htime, hst⟩)]
  rw [hcv]
  dsimp only
  rw [htas]
  dsimp only
  rw [if_pos hlt]
  rw [passed_removal_threshold_eq (Nat.le_of_lt htime)]
  rw [decide_eq_true hwin]

theorem update_increase_ok {cfg : Config} {now : BlockNumber} {who : AccountId}
    {pid : ProposalId} {s : PalletState} {p : Proposal} {cv : Vote}
    {nvd : VoteDecision} {pI : Proposal}
    (hreg : is_registered s who = true)
    (hp : alookup s.proposals pid = some p)
    (hst : p.status = ProposalStatus.InProgress) (htime : now < p.time_period)
    (hcv : alookup s.votes (who, pid) = some cv)
    (htas : tallyAddSide (subOldSide p cv.vote_decision) nvd = some pI)
    (hgt : decisionAmount cv.vote_decision < decisionAmount nvd)
    (hlim : decisionAmount nvd ≤ cfg.voteLimit)
    (hcpow : decisionAmount cv.vote_decision * decisionAmount cv.vote_decision ≤ u32Max)
    (hnpow : decisionAmount nvd * decisionAmount nvd ≤ u32Max)
    (hbal : decisionAmount nvd * decisionAmount nvd -
      decisionAmount cv.vote_decision * decisionAmount cv.vote_decision ≤
      getBal s.freeBal who) :
    update_vote cfg now who pid nvd s = Outcome.ok { s with
      votes := ainsert s.votes (who, pid) ⟨nvd, true⟩,
      proposals := ainsert s.proposals pid pI,
      freeBal := ainsert s.freeBal who (getBal s.freeBal who -
        (decisionAmount nvd * decisionAmount nvd -
          decisionAmount cv.vote_decision * decisionAmount cv.vote_decision)),
      reservedBal := ainsert s.reservedBal who (getBal s.reservedBal who +
        (decisionAmount nvd * decisionAmount nvd -
          decisionAmount cv.vote_decision * decisionAmount cv.vote_decision)) } := by
  unfold update_vote
  rw [hreg, if_neg (by decide : ¬(true = false))]
  rw [show get_proposal s pid = some p from hp]
  dsimp only
  rw [if_pos (show p.time_period > now ∧ p.status = ProposalStatus.InProgress from
    ⟨htime, hst⟩)]
  rw [hcv]
  dsimp only
  rw [htas]
  dsimp only
  rw [if_neg (Nat.not_lt.mpr (Nat.le_of_lt hgt))]
  unfold update_vote_tail
  rw [if_neg (by omega : ¬ decisionAmount nvd = 0)]
  rw [if_pos hlim]
  rw [checked_pow2_of_le hcpow]
  dsimp only
  rw [checked_pow2_of_le hnpow]
  dsimp only
  rw [if_pos (show decisionAmount nvd > decisionAmount cv.vote_decision from hgt)]
  rw [if_pos (Nat.mul_le_mul (Nat.le_of_lt hgt) (Nat.le_of_lt hgt))]
  rw [reserveBal_of_le hbal]

theorem update_switch_ok {cfg : Config} {now : BlockNumber} {who : AccountId}
    {pid : ProposalId} {s : PalletState} {p : Proposal} {cv : Vote}
    {nvd : VoteDecision} {pI : Proposal}
    (hreg : is_registered s who = true)
    (hp : alookup s.proposals pid = some p)
    (hst : p.status = ProposalStatus.InProgress) (htime : now < p.time_period)
    (hcv : alookup s.votes (who, pid) = some cv)
    (htas : tallyAddSide (subOldSide p cv.vote_decision) nvd = some pI)
    (heqm : decisionAmount nvd = decisionAmount cv.vote_decision)
    (hne0 : decisionAmount nvd ≠ 0)
    (hlim : decisionAmount nvd ≤ cfg.voteLimit)
    (hnpow : decisionAmount nvd * decisionAmount nvd ≤ u32Max) :
    update_vote cfg now who pid nvd s = Outcome.ok { s with
      votes := ainsert s.votes (who, pid) ⟨nvd, true⟩,
      proposals := ainsert s.proposals pid pI } := by
  unfold update_vote
  rw [hreg, if_neg (by decide : ¬(true = false))]
  rw [show get_proposal s pid = some p from hp]
  dsimp only
  rw [if_pos (show p.time_period > now ∧ p.status = ProposalStatus.InProgress from
    ⟨htime, hst⟩)]
  rw [hcv]
  dsimp only
  rw [htas]
  dsimp only
  rw [if_neg (by omega : ¬ decisionAmount nvd < decisionAmount cv.vote_decision)]
  unfold update_vote_tail
  rw [if_neg hne0]
  rw [if_pos hlim]
  rw [checked_pow2_of_le (heqm ▸ hnpow)]
  dsimp only
  rw [checked_pow2_of_le hnpow]
  dsimp only
  rw [if_neg (by omega : ¬ decisionAmount nvd > decisionAmount cv.vote_decision)]
  rw [if_neg (by omega : ¬ decisionAmount nvd < decisionAmount cv.vote_decision)]


theorem decisionAmount_flip (d : VoteDecision) :
    decisionAmount (flipDecision d) = decisionAmount d := by
  cases d <;> rfl

/-! ## The claims -/

/-- C1: for every reachable state and every voter account, the reserved
balance attributable to governance votes equals the sum of `n²` over that
voter's vote records with `locked = true` and magnitude `n`.  Because the
statement quantifies over every reachable state, every operation
(`vote`, `update_vote`, `cancel_vote`, `unlock_balance`, and the rest)
preserves the equality. -/
theorem C1_reserved_balance_invariant {cfg : Config} {s : PalletState}
    (h : Reachable cfg s) (a : AccountId) :
    getBal s.reservedBal a = lockedSum s.votes a :=
  (reachable_inv h).reservedEq a

theorem C1_witness :
    getBal sW3.reservedBal 1 = lockedSum sW3.votes 1 ∧
    getBal sW3.reservedBal 1 = 4 :=
  ⟨C1_reserved_balance_invariant reachW3 1, by decide⟩

/-- C2: for every reachable state and every stored proposal, `ayes` equals
the sum of magnitudes of the existing Aye votes keyed to it and `nays` the
sum over the Nay votes.  Quantification over every reachable state means
every vote-mutating operation adjusts the tally by the matching amount in
the same call. -/
theorem C2_tally_invariant {cfg : Config} {s : PalletState} (h : Reachable cfg s)
    (pid : ProposalId) (p : Proposal) (hp : alookup s.proposals pid = some p) :
    p.ayes = sideSum s.votes pid true ∧ p.nays = sideSum s.votes pid false :=
  (reachable_inv h).tallyEq pid p hp

theorem C2_witness :
    alookup sX5.proposals 1 =
      some ⟨1, 1, 7, 10, ProposalStatus.InProgress, 1, 1⟩ ∧
    (1 : Nat) = sideSum sX5.votes 1 true ∧ (1 : Nat) = sideSum sX5.votes 1 false :=
  ⟨by decide,
    C2_tally_invariant reachX5 1 ⟨1, 1, 7, 10, ProposalStatus.InProgress, 1, 1⟩
      (by decide)⟩

/-- C3: for every operation of the engine and every reachable starting
state, if the call returns a typed error then the state carried out of the
call — all storage maps, the proposal counter and all balances — is exactly
the pre-state: every error exit happens before any write (the host's
transactional dispatch additionally rolls back on error, which this raw,
rollback-free model does not even need on reachable states). -/
theorem C3_error_rollback {cfg : Config} {now : BlockNumber} {op : Op}
    {s s2 : PalletState} {e : Error} (hr : Reachable cfg s)
    (h : applyOp cfg now op s = Outcome.err e s2) : s2 = s := by
  have hi := reachable_inv hr
  cases op with
  | registerVoter r w =>
    replace h : register_voter cfg r w s = Outcome.err e s2 := h
    exact register_voter_err h
  | makeProposal w d tp =>
    replace h : make_proposal cfg now w d tp s = Outcome.err e s2 := h
    exact make_proposal_err h
  | increaseProposalTime w pid tp =>
    replace h : increase_proposal_time cfg now w pid tp s = Outcome.err e s2 := h
    exact increase_proposal_time_err h
  | cancelProposal w pid =>
    replace h : cancel_proposal cfg now w pid s = Outcome.err e s2 := h
    exact cancel_proposal_err h
  | voteOp w pid vd =>
    replace h : vote cfg now w pid vd s = Outcome.err e s2 := h
    exact vote_err h
  | updateVoteOp w pid vd =>
    replace h : update_vote cfg now w pid vd s = Outcome.err e s2 := h
    exact update_vote_err h
  | cancelVoteOp w pid =>
    replace h : cancel_vote cfg now w pid s = Outcome.err e s2 := h
    exact cancel_vote_err (fun e2 he2 => (hi.voteMag e2 he2).2.2) h
  | finishProposal w pid =>
    replace h : finish_proposal cfg now w pid s = Outcome.err e s2 := h
    exact finish_proposal_err h
  | unlockBalance w pid =>
    replace h : unlock_balance cfg w pid s = Outcome.err e s2 := h
    exact unlock_balance_err (fun e2 he2 => (hi.voteMag e2 he2).2.2) h

theorem C3_witness :
    ∃ s2, applyOp cfgW 0 (Op.voteOp 9 1 (VoteDecision.Aye 1)) sW2 =
      Outcome.err Error.VoterIsNotRegistered s2 ∧ s2 = sW2 := by
  have h : applyOp cfgW 0 (Op.voteOp 9 1 (VoteDecision.Aye 1)) sW2 =
      Outcome.err Error.VoterIsNotRegistered sW2 := by decide
  exact ⟨sW2, h, C3_error_rollback reachW2 h⟩

/-- C4, counterexample: as stated the claim is false.  In the reachable
two-voter state `sX5` the call `update_vote` with requested decision
`Aye u32Max` traps: the source adds the *unvalidated* new magnitude to the
`ayes` tally (`proposal.ayes += v`) before the `VoteLimit` check, and
`1 + u32Max` overflows u32. -/
theorem C4_counterexample :
    ¬ (∀ (cfg : Config) (now : BlockNumber) (op : Op) (s : PalletState),
        Reachable cfg s → applyOp cfg now op s ≠ Outcome.trap) := by
  intro hall
  exact hall cfgX 0 (Op.updateVoteOp 2 1 (VoteDecision.Aye u32Max)) sX5 reachX5
    (by decide)

/-- C4, amended: for every reachable state and input, every operation
returns `ok` or a typed error and never traps — in particular the
subtraction inside `passed_removal_threshold` is always guarded — provided
(a) the configuration keeps every possible tally within u32,
`(MaxVoters + 1) · min(VoteLimit, 65535) ≤ u32::MAX`, and (b) any
`update_vote` call requests a magnitude of at most `min(VoteLimit, 65535)`
(the source adds the requested magnitude to a tally before validating it). -/
theorem C4_no_trap {cfg : Config} {now : BlockNumber} {op : Op} {s : PalletState}
    (hr : Reachable cfg s)
    (hcfg : (cfg.maxVoters + 1) * magCap cfg ≤ u32Max)
    (hop : ∀ who pid nvd, op = Op.updateVoteOp who pid nvd →
      decisionAmount nvd ≤ magCap cfg) :
    applyOp cfg now op s ≠ Outcome.trap := by
  have hi := reachable_inv hr
  cases op with
  | registerVoter r w => exact register_voter_ne_trap cfg r w s
  | makeProposal w d tp => exact make_proposal_ne_trap cfg now w d tp s
  | increaseProposalTime w pid tp =>
    exact increase_proposal_time_ne_trap cfg now w pid tp s
  | cancelProposal w pid => exact cancel_proposal_ne_trap cfg now w pid s
  | voteOp w pid vd => exact vote_ne_trap hi hcfg
  | updateVoteOp w pid vd => exact update_vote_ne_trap hi hcfg (hop w pid vd rfl)
  | cancelVoteOp w pid => exact cancel_vote_ne_trap cfg now w pid s
  | finishProposal w pid => exact finish_proposal_ne_trap cfg now w pid s
  | unlockBalance w pid => exact unlock_balance_ne_trap cfg w pid s

theorem C4_witness :
    (cfgW.maxVoters + 1) * magCap cfgW ≤ u32Max ∧
    applyOp cfgW 0 (Op.voteOp 2 1 (VoteDecision.Aye 3)) sW3 ≠ Outcome.trap :=
  ⟨by decide, C4_no_trap reachW3 (by decide) (fun who pid nvd hh => nomatch hh)⟩

/-- C7: every successful `vote` call implies its preconditions (registered
voter, existing `InProgress` proposal with future deadline, no prior vote,
magnitude in `(0, VoteLimit]`) and its effects: the voter's reserved
balance grows by exactly `n²`, a record `{decision, locked: true}` is
inserted, and the matching tally grows by exactly `n`. -/
theorem C7_vote_success_effects {cfg : Config} {now : BlockNumber}
    {who : AccountId} {pid : ProposalId} {vd : VoteDecision} {s s' : PalletState}
    (h : vote cfg now who pid vd s = Outcome.ok s') :
    is_registered s who = true ∧
    ∃ p, alookup s.proposals pid = some p ∧ p.status = ProposalStatus.InProgress ∧
      now < p.time_period ∧ vote_casted s who pid = false ∧
      0 < decisionAmount vd ∧ decisionAmount vd ≤ cfg.voteLimit ∧
      getBal s'.reservedBal who =
        getBal s.reservedBal who + decisionAmount vd * decisionAmount vd ∧
      alookup s'.votes (who, pid) = some ⟨vd, true⟩ ∧
      ∃ p', alookup s'.proposals pid = some p' ∧
        (∀ v, vd = VoteDecision.Aye v → p'.ayes = p.ayes + v ∧ p'.nays = p.nays) ∧
        (∀ v, vd = VoteDecision.Nay v → p'.nays = p.nays + v ∧ p'.ayes = p.ayes) := by
  obtain ⟨hreg, p, s1, p2, hp, htime, hst, hcast, hpos, hlim, hle, hres, htas, hs'⟩ :=
    vote_ok h
  obtain ⟨hbal, hs1⟩ := reserveBal_some hres
  subst hs1
  subst hs'
  refine ⟨hreg, p, hp, hst, htime, hcast, hpos, hlim, ?_, ?_, p2, ?_, ?_, ?_⟩
  · show getBal (ainsert s.reservedBal who _) who = _
    rw [getBal_ainsert_self]
  · show alookup (ainsert s.votes (who, pid) _) (who, pid) = _
    rw [alookup_ainsert_self]
  · show alookup (ainsert s.proposals pid p2) pid = _
    rw [alookup_ainsert_self]
  · intro v hv
    subst hv
    obtain ⟨a1, a2, a3⟩ := tallyAddSide_aye htas
    exact ⟨a1, a2⟩
  · intro v hv
    subst hv
    obtain ⟨a1, a2, a3⟩ := tallyAddSide_nay htas
    exact ⟨a1, a2⟩

theorem C7_witness :
    vote cfgW 0 1 1 (VoteDecision.Aye 2) sW2 = Outcome.ok sW3 ∧
    getBal sW3.reservedBal 1 = getBal sW2.reservedBal 1 + 2 * 2 := by
  have h : vote cfgW 0 1 1 (VoteDecision.Aye 2) sW2 = Outcome.ok sW3 := by decide
  obtain ⟨hreg, p, hp, hst, htime, hcast, hpos, hlim, hres, hrest⟩ :=
    C7_vote_success_effects h
  exact ⟨h, hres⟩

/-- C9: `increase_proposal_time` succeeds for the proposer whenever the
proposal exists and the new deadline is strictly above both the stored
deadline and the current time, setting only `time_period` — with no status
check, so this holds for Canceled, Passed, Rejected and Tied proposals
alike.  (Reachability supplies the proposer's registration, which the code
checks first; proposers are always registered.) -/
theorem C9_extend_any_status {cfg : Config} {now : BlockNumber} {who : AccountId}
    {pid : ProposalId} {ntp : BlockNumber} {s : PalletState} {p : Proposal}
    (hr : Reachable cfg s)
    (hp : alookup s.proposals pid = some p) (hwho : p.proposer = who)
    (h1 : p.time_period < ntp) (h2 : now < ntp) :
    increase_proposal_time cfg now who pid ntp s = Outcome.ok
      { s with proposals := ainsert s.proposals pid ({ p with time_period := ntp }) } := by
  have hi := reachable_inv hr
  have hreg : is_registered s who = true := by
    have := hi.proposerReg pid p hp
    rw [hwho] at this
    exact this
  exact increase_ok_eval hreg hp hwho h1 h2

theorem C9_witness :
    pWc.status = ProposalStatus.Canceled ∧
    increase_proposal_time cfgW 12 1 1 20 sWc = Outcome.ok
      { sWc with proposals := ainsert sWc.proposals 1 ({ pWc with time_period := 20 }) } :=
  ⟨rfl, C9_extend_any_status reachWc (by decide) (by decide) (by decide) (by decide)⟩

theorem unlock_err_inprogress {cfg : Config} {who : AccountId} {pid : ProposalId}
    {s : PalletState} {p : Proposal} (hp : alookup s.proposals pid = some p)
    (hst : p.status = ProposalStatus.InProgress) :
    unlock_balance cfg who pid s = Outcome.err Error.ProposalInProgress s := by
  unfold unlock_balance
  rw [show get_proposal s pid = some p from hp]
  dsimp only
  rw [if_pos hst]

/-- C5: with an existing vote of magnitude `current` on an `InProgress`
proposal whose deadline is in the future, inside the removal-threshold
window (`deadline − now < VoteRemovalThreshold`) `update_vote` to a
strictly smaller magnitude fails with `PassedRemovalThreshold`, while
`update_vote` to a strictly larger magnitude — validity and balance
permitting — succeeds in the very same window. -/
theorem C5_window_reduction_vs_increase {cfg : Config} {now : BlockNumber}
    {who : AccountId} {pid : ProposalId} {s : PalletState} {p : Proposal}
    {cv : Vote} {nRed nInc : VoteDecision} {pR pI : Proposal}
    (hreg : is_registered s who = true)
    (hp : alookup s.proposals pid = some p)
    (hst : p.status = ProposalStatus.InProgress)
    (htime : now < p.time_period)
    (hcv : alookup s.votes (who, pid) = some cv)
    (hwin : p.time_period - now < cfg.voteRemovalThreshold)
    (hRtas : tallyAddSide (subOldSide p cv.vote_decision) nRed = some pR)
    (hRlt : decisionAmount nRed < decisionAmount cv.vote_decision)
    (hItas : tallyAddSide (subOldSide p cv.vote_decision) nInc = some pI)
    (hIgt : decisionAmount cv.vote_decision < decisionAmount nInc)
    (hIlim : decisionAmount nInc ≤ cfg.voteLimit)
    (hIcpow : decisionAmount cv.vote_decision * decisionAmount cv.vote_decision ≤ u32Max)
    (hInpow : decisionAmount nInc * decisionAmount nInc ≤ u32Max)
    (hIbal : decisionAmount nInc * decisionAmount nInc -
      decisionAmount cv.vote_decision * decisionAmount cv.vote_decision ≤
      getBal s.freeBal who) :
    update_vote cfg now who pid nRed s = Outcome.err Error.PassedRemovalThreshold s ∧
    ∃ s', update_vote cfg now who pid nInc s = Outcome.ok s' :=
  ⟨update_reduction_err hreg hp hst htime hcv hRtas hRlt hwin,
   ⟨_, update_increase_ok hreg hp hst htime hcv hItas hIgt hIlim hIcpow hInpow hIbal⟩⟩

theorem C5_witness :
    update_vote cfgW 6 1 1 (VoteDecision.Aye 1) sW3 =
      Outcome.err Error.PassedRemovalThreshold sW3 ∧
    ∃ s', update_vote cfgW 6 1 1 (VoteDecision.Aye 3) sW3 = Outcome.ok s' :=
  C5_window_reduction_vs_increase (by decide)
    (show alookup sW3.proposals 1 = some pW3 by decide) (by decide) (by decide)
    (show alookup sW3.votes (1, 1) = some ⟨VoteDecision.Aye 2, true⟩ by decide)
    (by decide)
    (show tallyAddSide (subOldSide pW3 (VoteDecision.Aye 2)) (VoteDecision.Aye 1) =
      some ⟨1, 1, 7, 10, ProposalStatus.InProgress, 1, 0⟩ by decide)
    (by decide)
    (show tallyAddSide (subOldSide pW3 (VoteDecision.Aye 2)) (VoteDecision.Aye 3) =
      some ⟨1, 1, 7, 10, ProposalStatus.InProgress, 3, 0⟩ by decide)
    (by decide) (by decide) (by decide) (by decide) (by decide)

/-- C6: with a registered caller, `finish_proposal` succeeds exactly when
the proposal exists, is `InProgress` and its deadline is strictly before
the current time; on success the stored status becomes `Passed` when
`ayes > nays`, `Rejected` when `ayes < nays` and `Tied` when equal; and
every later `finish_proposal` on the same proposal, from any state
reachable after the success, fails with `ProposalAlreadyEnded`. -/
theorem C6_finish_lifecycle {cfg : Config} {now : BlockNumber} {who : AccountId}
    {pid : ProposalId} {s : PalletState}
    (hr : Reachable cfg s) (hreg : is_registered s who = true) :
    ((∃ s', finish_proposal cfg now who pid s = Outcome.ok s') ↔
      (∃ p, alookup s.proposals pid = some p ∧
        p.status = ProposalStatus.InProgress ∧ p.time_period < now)) ∧
    (∀ p, alookup s.proposals pid = some p → p.status = ProposalStatus.InProgress →
      p.time_period < now →
      finish_proposal cfg now who pid s = Outcome.ok { s with
        proposals := ainsert s.proposals pid ({ p with status :=
          if p.nays < p.ayes then ProposalStatus.Passed
          else if p.ayes < p.nays then ProposalStatus.Rejected
          else ProposalStatus.Tied }) }) ∧
    (∀ s', finish_proposal cfg now who pid s = Outcome.ok s' →
      ∀ s'' now2 who2, ReachableFrom cfg s' s'' → is_registered s'' who2 = true →
        finish_proposal cfg now2 who2 pid s'' =
          Outcome.err Error.ProposalAlreadyEnded s'') := by
  refine ⟨⟨?_, ?_⟩, ?_, ?_⟩
  · rintro ⟨s', hok⟩
    obtain ⟨_, p, hp, h2, hst, _⟩ := finish_proposal_ok hok
    exact ⟨p, hp, hst, h2⟩
  · rintro ⟨p, hp, hst, h2⟩
    exact ⟨_, finish_ok_eval hreg hp hst h2⟩
  · intro p hp hst h2
    have hv : (if p.ayes < p.nays then ProposalStatus.Rejected
        else if p.nays < p.ayes then ProposalStatus.Passed
        else ProposalStatus.Tied) =
        (if p.nays < p.ayes then ProposalStatus.Passed
        else if p.ayes < p.nays then ProposalStatus.Rejected
        else ProposalStatus.Tied) := by
      rcases Nat.lt_trichotomy p.ayes p.nays with hlt | heq | hgt
      · rw [if_pos hlt, if_neg (by omega), if_pos hlt]
      · rw [if_neg (by omega), if_neg (by omega), if_neg (by omega), if_neg (by omega)]
      · rw [if_neg (by omega), if_pos hgt, if_pos hgt]
    have hok := @finish_ok_eval cfg now who pid s p hreg hp hst h2
    rw [hv] at hok
    exact hok
  · intro s' hok s'' now2 who2 hrf hreg2
    obtain ⟨_, p, hp, h2, hst, hs'⟩ := finish_proposal_ok hok
    have hr' : Reachable cfg s' :=
      Reachable.step now (Op.finishProposal who pid) hr hok
    have hp' : alookup s'.proposals pid = some ({ p with status :=
        if p.ayes < p.nays then ProposalStatus.Rejected
        else if p.nays < p.ayes then ProposalStatus.Passed
        else ProposalStatus.Tied }) := by
      subst hs'
      show alookup (ainsert s.proposals pid _) pid = some _
      rw [alookup_ainsert_self]
    obtain ⟨p'', hp'', hst''⟩ := terminal_persists hr' hp'
      (verdict_ne_inprogress p.ayes p.nays) hrf
    exact finish_err_ended hreg2 hp'' hst''

theorem C6_witness :
    ∃ s', finish_proposal cfgW 11 1 1 sW3 = Outcome.ok s' ∧
      finish_proposal cfgW 12 1 1 s' = Outcome.err Error.ProposalAlreadyEnded s' := by
  obtain ⟨h1, h2, h3⟩ := @C6_finish_lifecycle cfgW 11 1 1 sW3 reachW3 (by decide)
  have hok := h2 pW3 (by decide) (by decide) (by decide)
  exact ⟨_, hok, h3 _ hok _ 12 1 (ReachableFrom.refl _) (by decide)⟩

/-- C8: `unlock_balance` fails with `ProposalInProgress` while the
proposal's status is `InProgress`; once the status is anything else, the
first call by a voter holding a locked vote of magnitude `n` succeeds, sets
`locked = false` and unreserves exactly `n²` (the reachable-state invariant
guarantees at least `n²` is reserved), and every subsequent call by that
voter on that proposal — in any state reachable after the unlock — fails
with `BalanceAlreadyUnocked`. -/
theorem C8_unlock_lifecycle {cfg : Config} {s : PalletState} (hr : Reachable cfg s)
    {pid : ProposalId} {p : Proposal} (hp : alookup s.proposals pid = some p) :
    (p.status = ProposalStatus.InProgress →
      ∀ who, unlock_balance cfg who pid s = Outcome.err Error.ProposalInProgress s) ∧
    (∀ who d, p.status ≠ ProposalStatus.InProgress →
      alookup s.votes (who, pid) = some ⟨d, true⟩ →
      ∃ s', unlock_balance cfg who pid s = Outcome.ok s' ∧
        alookup s'.votes (who, pid) = some ⟨d, false⟩ ∧
        decisionAmount d * decisionAmount d ≤ getBal s.reservedBal who ∧
        getBal s'.reservedBal who =
          getBal s.reservedBal who - decisionAmount d * decisionAmount d ∧
        getBal s'.freeBal who =
          getBal s.freeBal who + decisionAmount d * decisionAmount d ∧
        (∀ s'', ReachableFrom cfg s' s'' →
          unlock_balance cfg who pid s'' =
            Outcome.err Error.BalanceAlreadyUnocked s'')) := by
  have hi := reachable_inv hr
  constructor
  · intro hst who
    exact unlock_err_inprogress hp hst
  · intro who d hst hv
    have hmem := alookup_mem hv
    have hle : decisionAmount d * decisionAmount d ≤ u32Max := by
      have := (hi.voteMag _ hmem).2.2
      exact this
    have hres_ge : decisionAmount d * decisionAmount d ≤ getBal s.reservedBal who := by
      have hsplit := lockedSum_aerase_some hi.ndVotes hv who
      rw [if_pos ⟨rfl, rfl⟩] at hsplit
      have e2 := hi.reservedEq who
      dsimp only at hsplit
      omega
    have hok := @unlock_ok_eval cfg who pid s p d hp hst hv hle
    refine ⟨_, hok, ?_, hres_ge, ?_, ?_, ?_⟩
    · show alookup (ainsert s.votes (who, pid) ⟨d, false⟩) (who, pid) = some ⟨d, false⟩
      rw [alookup_ainsert_self]
    · show getBal (ainsert s.reservedBal who _) who = _
      rw [getBal_ainsert_self]
    · show getBal (ainsert s.freeBal who _) who = _
      rw [getBal_ainsert_self, Nat.min_eq_left hres_ge]
    · intro s'' hrf
      have hr2 : Reachable cfg ({ s with
          votes := ainsert s.votes (who, pid) ⟨d, false⟩,
          freeBal := ainsert s.freeBal who (getBal s.freeBal who +
            min (decisionAmount d * decisionAmount d) (getBal s.reservedBal who)),
          reservedBal := ainsert s.reservedBal who (getBal s.reservedBal who -
            decisionAmount d * decisionAmount d) } : PalletState) :=
        Reachable.step 0 (Op.unlockBalance who pid) hr hok
      have hp2 : alookup ({ s with
          votes := ainsert s.votes (who, pid) ⟨d, false⟩,
          freeBal := ainsert s.freeBal who (getBal s.freeBal who +
            min (decisionAmount d * decisionAmount d) (getBal s.reservedBal who)),
          reservedBal := ainsert s.reservedBal who (getBal s.reservedBal who -
            decisionAmount d * decisionAmount d) } : PalletState).proposals pid =
          some p := hp
      have hv2 : alookup ({ s with
          votes := ainsert s.votes (who, pid) ⟨d, false⟩,
          freeBal := ainsert s.freeBal who (getBal s.freeBal who +
            min (decisionAmount d * decisionAmount d) (getBal s.reservedBal who)),
          reservedBal := ainsert s.reservedBal who (getBal s.reservedBal who -
            decisionAmount d * decisionAmount d) } : PalletState).votes (who, pid) =
          some ⟨d, false⟩ := by
        show alookup (ainsert s.votes (who, pid) ⟨d, false⟩) (who, pid) = _
        rw [alookup_ainsert_self]
      obtain ⟨p'', hp'', hst''⟩ := terminal_persists hr2 hp2 hst hrf
      have hv'' := unlocked_vote_persists hr2 hp2 hst hv2 hrf
      exact unlock_err_already hp'' hst'' hv''

theorem C8_witness :
    unlock_balance cfgW 1 1 sW3 = Outcome.err Error.ProposalInProgress sW3 ∧
    ∃ s', unlock_balance cfgW 1 1 sW4 = Outcome.ok s' ∧
      unlock_balance cfgW 1 1 s' = Outcome.err Error.BalanceAlreadyUnocked s' := by
  constructor
  · exact (@C8_unlock_lifecycle cfgW sW3 reachW3 1 pW3
      (show alookup sW3.proposals 1 = some pW3 by decide)).1 rfl 1
  · obtain ⟨s', hok, hv, hge, hres, hfree, hpers⟩ :=
      (@C8_unlock_lifecycle cfgW sW4 reachW4 1 pW4
        (show alookup sW4.proposals 1 = some pW4 by decide)).2 1 (VoteDecision.Aye 2)
        (by decide)
        (show alookup sW4.votes (1, 1) = some ⟨VoteDecision.Aye 2, true⟩ by decide)
    exact ⟨s', hok, hpers s' (ReachableFrom.refl s')⟩

/-- C10: `update_vote` that switches the side of an existing vote while
keeping its magnitude succeeds even inside the removal-threshold window —
the gate applies only to strict magnitude reductions — leaving the voter's
free and reserved balances unchanged and moving exactly `n` from one tally
to the other. -/
theorem C10_side_switch_in_window {cfg : Config} {now : BlockNumber}
    {who : AccountId} {pid : ProposalId} {s : PalletState} {p : Proposal}
    {cv : Vote} {pI : Proposal}
    (hreg : is_registered s who = true)
    (hp : alookup s.proposals pid = some p)
    (hst : p.status = ProposalStatus.InProgress) (htime : now < p.time_period)
    (hcv : alookup s.votes (who, pid) = some cv)
    (hwin : p.time_period - now < cfg.voteRemovalThreshold)
    (hne0 : decisionAmount cv.vote_decision ≠ 0)
    (hlim : decisionAmount cv.vote_decision ≤ cfg.voteLimit)
    (hpow : decisionAmount cv.vote_decision * decisionAmount cv.vote_decision ≤ u32Max)
    (htas : tallyAddSide (subOldSide p cv.vote_decision)
      (flipDecision cv.vote_decision) = some pI) :
    ∃ s', update_vote cfg now who pid (flipDecision cv.vote_decision) s =
        Outcome.ok s' ∧
      getBal s'.reservedBal who = getBal s.reservedBal who ∧
      getBal s'.freeBal who = getBal s.freeBal who ∧
      alookup s'.proposals pid = some pI ∧
      (∀ v, cv.vote_decision = VoteDecision.Aye v → v ≤ p.ayes →
        pI.ayes + v = p.ayes ∧ pI.nays = p.nays + v) ∧
      (∀ v, cv.vote_decision = VoteDecision.Nay v → v ≤ p.nays →
        pI.nays + v = p.nays ∧ pI.ayes = p.ayes + v) := by
  have hok := update_switch_ok hreg hp hst htime hcv htas
    (decisionAmount_flip cv.vote_decision)
    (by rw [decisionAmount_flip]; exact hne0)
    (by rw [decisionAmount_flip]; exact hlim)
    (by rw [decisionAmount_flip]; exact hpow)
  refine ⟨_, hok, rfl, rfl, ?_, ?_, ?_⟩
  · show alookup (ainsert s.proposals pid pI) pid = some pI
    rw [alookup_ainsert_self]
  · intro v hcvd hub
    rw [hcvd] at htas
    simp only [flipDecision, subOldSide] at htas
    obtain ⟨a1, a2, a3⟩ := tallyAddSide_nay htas
    have b1 : pI.nays = p.nays + v := a1
    have b2 : pI.ayes = p.ayes - v := a2
    omega
  · intro v hcvd hub
    rw [hcvd] at htas
    simp only [flipDecision, subOldSide] at htas
    obtain ⟨a1, a2, a3⟩ := tallyAddSide_aye htas
    have b1 : pI.ayes = p.ayes + v := a1
    have b2 : pI.nays = p.nays - v := a2
    omega

theorem C10_witness :
    ∃ s', update_vote cfgW 6 1 1 (flipDecision (VoteDecision.Aye 2)) sW3 =
        Outcome.ok s' ∧
      getBal s'.reservedBal 1 = getBal sW3.reservedBal 1 ∧
      alookup s'.proposals 1 = some ⟨1, 1, 7, 10, ProposalStatus.InProgress, 0, 2⟩ := by
  obtain ⟨s', hok, hres, hfree, hlook, _⟩ :=
    @C10_side_switch_in_window cfgW 6 1 1 sW3 pW3 ⟨VoteDecision.Aye 2, true⟩
      ⟨1, 1, 7, 10, ProposalStatus.InProgress, 0, 2⟩ (by decide) (by decide)
      (by decide) (by decide) (by decide) (by decide) (by decide) (by decide)
      (by decide) (by decide)
  exact ⟨s', hok, hres, hlook⟩
end Voting
